import Mathlib

/-!
Verification development for the auto-restic backup orchestrator.

The Go sources are shallowly embedded: pure logic becomes Lean functions,
subprocess and network calls become explicit outcome parameters (oracles),
and the Prometheus metric state becomes a record of finite maps from label
values to optional numbers (a series is absent until first touched, exactly
as in the client library).  Sizes, timestamps and counters are modelled as
integers.
-/

namespace AutoRestic

/-! ## Strings: Go strings.TrimPrefix / strings.TrimSuffix / strings.HasPrefix -/

/-- Model of Go strings.HasPrefix on the underlying character sequences. -/
def strHasPre (pre s : String) : Bool :=
  pre.data.isPrefixOf s.data

/-- Model of Go strings.HasSuffix on the underlying character sequences. -/
def strHasSuf (suf s : String) : Bool :=
  suf.data.isSuffixOf s.data

/-- Model of Go strings.TrimPrefix: drop the given leading text when present,
otherwise return the string unchanged. -/
def goTrimPre (s pre : String) : String :=
  if strHasPre pre s then String.mk (s.data.drop pre.data.length) else s

/-- Model of Go strings.TrimSuffix: drop the given trailing text when present,
otherwise return the string unchanged. -/
def goTrimSuf (s suf : String) : String :=
  if strHasSuf suf s then String.mk (s.data.take (s.data.length - suf.data.length)) else s

/-! ## internal/restic: snapshot name resolution (snapshotJson.GetName) -/

/-- Model of snapshotJson.GetName from internal/restic/restic.go: scan the tag
list in order, return the first tag carrying the marker with the marker
stripped, and fall back to the snapshot id when no tag carries it. -/
def getNameFromTags (tags : List String) (id : String) : String :=
  match tags with
  | [] => id
  | t :: rest =>
      if strHasPre "name=" t then goTrimPre t "name=" else getNameFromTags rest id

/-- A snapshot as decoded from the engine listing (snapshotJson), restricted
to the fields the tasks read: id, creation time (unix seconds), tags and the
summary size figure used for the latest-size gauge. -/
structure Snapshot where
  id : String
  time : Int
  tags : List String
  dataAddedPacked : Int
  deriving Repr, DecidableEq

/-- Name of a snapshot (Snapshot.Name, computed by ToInternalSnapshot via
GetName). -/
def Snapshot.name (s : Snapshot) : String :=
  getNameFromTags s.tags s.id

/-! ## internal/restic: NewRestic (repository open) -/

/-- Outcome of the os.Stat probe on the repository path. -/
inductive StatOutcome where
  | present
  | absent
  | failure
  deriving Repr, DecidableEq

/-- Model of (Restic).exists: os.Stat, mapping fs.ErrNotExist to a clean
false and any other stat error to an error result. -/
def resticExists : StatOutcome → Except Unit Bool
  | .present => .ok true
  | .absent => .ok false
  | .failure => .error ()

/-- Result of NewRestic, distinguishing the four exit paths of the source. -/
inductive OpenResult where
  | opened
  | statError
  | authError
  | initError
  deriving Repr, DecidableEq

/-- Model of NewRestic from internal/restic/restic.go: probe the path; on a
stat failure fail; when the repository exists accept or reject on the
password probe; when absent run restic init and fail when it fails. -/
def newRestic (stat : StatOutcome) (passwordOk : Bool) (initOk : Bool) : OpenResult :=
  match resticExists stat with
  | .error _ => .statError
  | .ok true => if passwordOk then .opened else .authError
  | .ok false => if initOk then .opened else .initError

/-! ## internal/metrics (server version): vectors of labelled series

A Prometheus vector is modelled as a map from the label value to the current
number; a label combination is absent (None) until it is first accessed,
exactly as in the client library, where WithLabelValues creates the series
at zero on first use. -/

/-- One metric vector: label value to current value; absent until created. -/
def Series : Type := String → Option Int

/-- Vector with no series registered. -/
def Series.empty : Series := fun _ => none

/-- Model of WithLabelValues(k).Set(v): create the series if needed, then
overwrite its value. -/
def Series.set (f : Series) (k : String) (v : Int) : Series :=
  fun n => if n = k then some v else f n

/-- Model of WithLabelValues(k).Add(v) and Inc (v = 1): create the series at
zero if needed, then add. -/
def Series.add (f : Series) (k : String) (v : Int) : Series :=
  fun n => if n = k then some ((f k).getD 0 + v) else f n

/-- The scheduler error operation classes from internal/metrics/metrics.go. -/
def SchedulerErrorResticCheck : String := "restic_check"

/-- Operation class for a failed forget-and-prune pass. -/
def SchedulerErrorResticForgetAndPrune : String := "restic_forget_and_prune"

/-- Operation class for a failed snapshot listing. -/
def SchedulerErrorResticListSnapshots : String := "restic_list_snapshots"

/-- Operation class for a failed per-name stats query. -/
def SchedulerErrorResticGetSnapshotStats : String := "restic_get_snapshot_stats"

/-- Operation class for a failed object listing. -/
def SchedulerErrorS3ListObjects : String := "s3_list_objects"

/-- The metric state held by the Metrics struct of internal/metrics/metrics.go:
one field per registered vector. -/
structure Metrics where
  schedulerErrors : Series
  resticSnapshotErrors : Series
  resticSnapshotLatestDuration : Series
  resticSnapshotLatestSize : Series
  resticSnapshotLatestTimestamp : Series
  resticSnapshotCount : Series
  resticSnapshotTotalSize : Series
  s3SnapshotErrors : Series
  s3SnapshotLatestDuration : Series
  s3SnapshotLatestUploadDuration : Series
  s3SnapshotLatestSize : Series
  s3SnapshotLatestTimestamp : Series
  s3SnapshotCount : Series
  s3SnapshotTotalSize : Series

/-- Model of NewMetrics: every vector starts empty, then the five scheduler
operation classes are pre-registered at zero via Add(0).  No per-backup-name
series is touched here; NewMetrics does not even receive the configuration. -/
def newMetrics : Metrics :=
  let base : Metrics :=
    { schedulerErrors := Series.empty
      resticSnapshotErrors := Series.empty
      resticSnapshotLatestDuration := Series.empty
      resticSnapshotLatestSize := Series.empty
      resticSnapshotLatestTimestamp := Series.empty
      resticSnapshotCount := Series.empty
      resticSnapshotTotalSize := Series.empty
      s3SnapshotErrors := Series.empty
      s3SnapshotLatestDuration := Series.empty
      s3SnapshotLatestUploadDuration := Series.empty
      s3SnapshotLatestSize := Series.empty
      s3SnapshotLatestTimestamp := Series.empty
      s3SnapshotCount := Series.empty
      s3SnapshotTotalSize := Series.empty }
  { base with
      schedulerErrors :=
        ((((base.schedulerErrors.add SchedulerErrorResticCheck 0).add
            SchedulerErrorResticForgetAndPrune 0).add
            SchedulerErrorResticListSnapshots 0).add
            SchedulerErrorResticGetSnapshotStats 0).add
            SchedulerErrorS3ListObjects 0 }

/-- Model of the startup sequence of cmd/server/main.go as far as metrics are
concerned: the Metrics value in place before the scheduler starts is exactly
NewMetrics(); the configured backup list plays no role in it. -/
def serverStartupMetrics (_configuredBackups : List String) : Metrics :=
  newMetrics

/-- Model of (Metrics).AddSchedulerError. -/
def Metrics.addSchedulerError (m : Metrics) (op : String) : Metrics :=
  { m with schedulerErrors := m.schedulerErrors.add op 1 }

/-- Model of (Metrics).AddResticErrorByBackupName. -/
def Metrics.addResticErrorByBackupName (m : Metrics) (name : String) : Metrics :=
  { m with resticSnapshotErrors := m.resticSnapshotErrors.add name 1 }

/-- Model of (Metrics).SetResticStatsByBackupName. -/
def Metrics.setResticStatsByBackupName (m : Metrics) (name : String)
    (count totalSize latestSize latestTime : Int) : Metrics :=
  { m with
      resticSnapshotCount := m.resticSnapshotCount.set name count
      resticSnapshotTotalSize := m.resticSnapshotTotalSize.set name totalSize
      resticSnapshotLatestSize := m.resticSnapshotLatestSize.set name latestSize
      resticSnapshotLatestTimestamp := m.resticSnapshotLatestTimestamp.set name latestTime }

/-- Model of (Metrics).SetResticDurationByBackupName. -/
def Metrics.setResticDurationByBackupName (m : Metrics) (name : String) (duration : Int) : Metrics :=
  { m with resticSnapshotLatestDuration := m.resticSnapshotLatestDuration.set name duration }

/-- Model of (Metrics).AddS3ErrorByBackupName. -/
def Metrics.addS3ErrorByBackupName (m : Metrics) (name : String) : Metrics :=
  { m with s3SnapshotErrors := m.s3SnapshotErrors.add name 1 }

/-- Model of (Metrics).SetS3StatsByBackupName. -/
def Metrics.setS3StatsByBackupName (m : Metrics) (name : String)
    (count totalSize latestSize latestTime : Int) : Metrics :=
  { m with
      s3SnapshotCount := m.s3SnapshotCount.set name count
      s3SnapshotTotalSize := m.s3SnapshotTotalSize.set name totalSize
      s3SnapshotLatestSize := m.s3SnapshotLatestSize.set name latestSize
      s3SnapshotLatestTimestamp := m.s3SnapshotLatestTimestamp.set name latestTime }

/-! ## Go maps used by the reconciliation folds in internal/task/task.go

A Go map[string]T is modelled as an association list with unique keys:
writing replaces in place or appends, reading a missing key yields the zero
value.  Go map iteration order is unspecified; the model iterates in
insertion order, and no claim below depends on the order. -/

/-- Association map used to model map[string]int64 / map[string]float64. -/
def GoMap : Type := List (String × Int)

/-- Read with zero default, as a Go map read of a missing key. -/
def GoMap.get (m : GoMap) (k : String) : Int :=
  match List.find? (fun p => p.1 = k) m with
  | some p => p.2
  | none => 0

/-- Write: replace in place when present, append when absent. -/
def GoMap.set : GoMap → String → Int → GoMap
  | [], k, v => [(k, v)]
  | p :: rest, k, v => if p.1 = k then (k, v) :: rest else p :: GoMap.set rest k v

/-- Key list of the map, in insertion order. -/
def GoMap.keys (m : GoMap) : List String :=
  m.map Prod.fst

/-- Model of map[string]bool used as a set: insert the key when absent. -/
def insertNew (l : List String) (k : String) : List String :=
  if k ∈ l then l else l ++ [k]

/-! ## internal/task: updateResticMetrics -/

/-- Engine responses consumed by the repository reconciliation: the snapshot
listing and the per-name stats query (TotalSize figure), each of which may
fail. -/
structure ResticEnv where
  snapshots : Except Unit (List Snapshot)
  stats : String → Except Unit Int

/-- Intermediate state of the reconciliation fold: the four value maps and
the set of backup names seen among the snapshots. -/
structure SnapFold where
  count : GoMap
  totalSize : GoMap
  latestSize : GoMap
  latestTime : GoMap
  snapNames : List String

/-- Zero-write for one configured name in all four snapshot maps. -/
def snapZeroStep (st : SnapFold) (n : String) : SnapFold :=
  { count := st.count.set n 0
    totalSize := st.totalSize.set n 0
    latestSize := st.latestSize.set n 0
    latestTime := st.latestTime.set n 0
    snapNames := st.snapNames }

/-- Zero-initialization loop of updateResticMetrics: every configured backup
name gets an explicit zero in all four maps. -/
def snapFoldInit (backups : List String) : SnapFold :=
  backups.foldl snapZeroStep ⟨[], [], [], [], []⟩

/-- Snapshot loop of updateResticMetrics: count is incremented and the
latest-size / latest-time cells are overwritten by each snapshot in listing
order. -/
def snapFoldStep (st : SnapFold) (s : Snapshot) : SnapFold :=
  { count := st.count.set s.name (st.count.get s.name + 1)
    totalSize := st.totalSize
    latestSize := st.latestSize.set s.name s.dataAddedPacked
    latestTime := st.latestTime.set s.name s.time
    snapNames := insertNew st.snapNames s.name }

/-- Stats loop of updateResticMetrics: one stats query per name seen among
the snapshots, adding TotalSize into the total-size map; the first failure
increments the scheduler error counter and aborts the pass. -/
def statsLoop (stats : String → Except Unit Int) (m : Metrics) :
    GoMap → List String → Metrics × Except Unit GoMap
  | total, [] => (m, .ok total)
  | total, n :: rest =>
      match stats n with
      | .error _ => (m.addSchedulerError SchedulerErrorResticGetSnapshotStats, .error ())
      | .ok v => statsLoop stats m (total.set n (total.get n + v)) rest

/-- Publication fold: one SetResticStatsByBackupName call per listed name,
with the values the given fold state holds for that name. -/
def setResticStatsFold (st : SnapFold) (names : List String) (m : Metrics) : Metrics :=
  names.foldl
    (fun m n =>
      m.setResticStatsByBackupName n (st.count.get n) (st.totalSize.get n)
        (st.latestSize.get n) (st.latestTime.get n))
    m

/-- Final loop of updateResticMetrics: one SetResticStatsByBackupName call
per key of the count map. -/
def setResticStatsAll (st : SnapFold) (m : Metrics) : Metrics :=
  setResticStatsFold st st.count.keys m

/-- Model of updateResticMetrics from internal/task/task.go.  The Bool is
true exactly when the Go function returns nil. -/
def updateResticMetrics (backups : List String) (env : ResticEnv) (m : Metrics) :
    Metrics × Bool :=
  match env.snapshots with
  | .error _ => (m.addSchedulerError SchedulerErrorResticListSnapshots, false)
  | .ok ss =>
      let st := ss.foldl snapFoldStep (snapFoldInit backups)
      match statsLoop env.stats m st.totalSize st.snapNames with
      | (m', .error _) => (m', false)
      | (m', .ok total) => (setResticStatsAll { st with totalSize := total } m', true)

/-! ## internal/task: updateS3Metrics -/

/-- An object version as returned by the remote listing, before the backup
name is derived from the key. -/
structure RawObject where
  key : String
  size : Int
  lastModified : Int
  isLatest : Bool
  deriving Repr, DecidableEq

/-- An object as produced by (S3).ListObjects from internal/metrics/metrics.go:
the backup name is the key with the fixed archive suffix trimmed. -/
structure S3Object where
  backupName : String
  size : Int
  createdAt : Int
  isLatest : Bool
  deriving Repr, DecidableEq

/-- Model of (S3).ListObjects: a whole-listing failure aborts; otherwise each
raw object version is mapped to an S3Object with the derived backup name. -/
def listObjects (raw : Except Unit (List RawObject)) : Except Unit (List S3Object) :=
  raw.map (List.map fun o =>
    { backupName := goTrimSuf o.key ".tar.gz.age"
      size := o.size
      createdAt := o.lastModified
      isLatest := o.isLatest })

/-- Remote listing response consumed by the object-store reconciliation. -/
structure S3Env where
  objects : Except Unit (List RawObject)

/-- Intermediate state of the object-store fold. -/
structure ObjFold where
  count : GoMap
  totalSize : GoMap
  latestSize : GoMap
  latestTime : GoMap

/-- Zero-write for one name in all four object maps, used both by the
configured-name loop and by the per-object loop of updateS3Metrics. -/
def objFoldZero (st : ObjFold) (n : String) : ObjFold :=
  { count := st.count.set n 0
    totalSize := st.totalSize.set n 0
    latestSize := st.latestSize.set n 0
    latestTime := st.latestTime.set n 0 }

/-- Accumulation loop of updateS3Metrics: count and total size always, the
latest cells only from versions flagged as latest (each such version
overwrites the previous value). -/
def objFoldStep (st : ObjFold) (o : S3Object) : ObjFold :=
  { count := st.count.set o.backupName (st.count.get o.backupName + 1)
    totalSize := st.totalSize.set o.backupName (st.totalSize.get o.backupName + o.size)
    latestSize :=
      if o.isLatest then st.latestSize.set o.backupName o.size else st.latestSize
    latestTime :=
      if o.isLatest then st.latestTime.set o.backupName o.createdAt else st.latestTime }

/-- Publication fold: one SetS3StatsByBackupName call per listed name, with
the values the given fold state holds for that name. -/
def setS3StatsFold (st : ObjFold) (names : List String) (m : Metrics) : Metrics :=
  names.foldl
    (fun m n =>
      m.setS3StatsByBackupName n (st.count.get n) (st.totalSize.get n)
        (st.latestSize.get n) (st.latestTime.get n))
    m

/-- Final loop of updateS3Metrics: one SetS3StatsByBackupName call per key of
the count map. -/
def setS3StatsAll (st : ObjFold) (m : Metrics) : Metrics :=
  setS3StatsFold st st.count.keys m

/-- Model of updateS3Metrics from internal/task/task.go: zero-init the
configured names, list the object versions (a failure increments the
scheduler error counter and aborts), zero-init every derived name, fold, and
publish one gauge set per key.  The Bool is true exactly when the Go
function returns nil. -/
def updateS3Metrics (backups : List String) (env : S3Env) (m : Metrics) :
    Metrics × Bool :=
  let init := backups.foldl objFoldZero ⟨[], [], [], []⟩
  match listObjects env.objects with
  | .error _ => (m.addSchedulerError SchedulerErrorS3ListObjects, false)
  | .ok os =>
      let zeroed := os.foldl (fun st o => objFoldZero st o.backupName) init
      let st := os.foldl objFoldStep zeroed
      (setS3StatsAll st m, true)

/-- Model of UpdateAllMetrics from internal/task/task.go: the repository pass
first; its failure short-circuits, otherwise the object-store pass runs. -/
def updateAllMetrics (backups : List String) (renv : ResticEnv) (senv : S3Env)
    (m : Metrics) : Metrics × Bool :=
  let (m1, ok1) := updateResticMetrics backups renv m
  if ok1 then updateS3Metrics backups senv m1 else (m1, false)

/-! ## internal/task: the Backup loop -/

/-- One configured backup unit together with the outcome its commands would
have in the run being modelled: none means the pre/post command is empty (not
run); some b means the command runs and b is its success.  durationSec is the
wall time observed for the successful path. -/
structure BackupOutcome where
  name : String
  pre : Option Bool
  backupOk : Bool
  post : Option Bool
  durationSec : Int
  deriving Repr, DecidableEq

/-- Loop body of Backup from internal/task/task.go: a failing pre-command, a
failing engine backup, or a failing post-command increments the unit's error
counter and moves to the next unit; on full success the unit's duration gauge
is set. -/
def backupStep (m : Metrics) (u : BackupOutcome) : Metrics :=
  if u.pre = some false then m.addResticErrorByBackupName u.name
  else if u.backupOk = false then m.addResticErrorByBackupName u.name
  else if u.post = some false then m.addResticErrorByBackupName u.name
  else m.setResticDurationByBackupName u.name u.durationSec

/-- Full success of one unit: the pre-command (when present), the engine
backup, and the post-command (when present) all succeed. -/
def BackupOutcome.ok (u : BackupOutcome) : Bool :=
  decide (u.pre ≠ some false) && u.backupOk && decide (u.post ≠ some false)

/-- Model of Backup from internal/task/task.go: the per-unit loop followed by
the repository reconciliation. -/
def backupTask (units : List BackupOutcome) (env : ResticEnv) (m : Metrics) : Metrics :=
  (updateResticMetrics (units.map BackupOutcome.name) env (units.foldl backupStep m)).1

/-! ## internal/task: createAndUploadEncryptedDump -/

/-- Producer stages of the export pipeline that can fail before or while the
archive is written into the pipe. -/
inductive ProducerStage where
  | recipient
  | encryptor
  | tarWrite
  deriving Repr, DecidableEq

/-- Errors returned by createAndUploadEncryptedDump, one per return site. -/
inductive DumpError where
  | tmpDir
  | restore
  | upload
  | archive (stage : ProducerStage)
  deriving Repr, DecidableEq

/-- Environment outcomes for one run of the export pipeline. producerSent is
the value the producer goroutine places on the error channel: none when
WriteTar returns nil, some stage otherwise. -/
structure DumpEnv where
  mkTempOk : Bool
  restoreOk : Bool
  producerSent : Option ProducerStage
  uploadOk : Bool
  deriving Repr, DecidableEq

/-- Observable outcome of one run of createAndUploadEncryptedDump.
pipeCloseCount counts executions of the close of the pipe's write side by
the producer (its deferred Close); joinedProducer records whether the caller
received the producer's outcome from the error channel before returning. -/
structure DumpResult where
  result : Option DumpError
  producerStarted : Bool
  pipeCloseCount : Nat
  joinedProducer : Bool
  tmpDirRemoved : Bool
  deriving Repr, DecidableEq

/-- Model of createAndUploadEncryptedDump from internal/task/task.go.  The
temporary directory removal is deferred, so it runs on every path after a
successful MkdirTemp.  The producer goroutine sends exactly one value on the
buffered error channel and its single deferred Close of the pipe write side
runs on each of its exit paths, hence pipeCloseCount = 1 whenever the
producer runs to completion.  The caller uploads first: an upload failure
returns immediately, without receiving from the error channel; only after a
successful upload does the caller join on the producer and surface its
error. -/
def createAndUploadEncryptedDump (env : DumpEnv) : DumpResult :=
  if env.mkTempOk = false then
    { result := some .tmpDir, producerStarted := false, pipeCloseCount := 0
      joinedProducer := false, tmpDirRemoved := false }
  else if env.restoreOk = false then
    { result := some .restore, producerStarted := false, pipeCloseCount := 0
      joinedProducer := false, tmpDirRemoved := true }
  else if env.uploadOk = false then
    { result := some .upload, producerStarted := true, pipeCloseCount := 1
      joinedProducer := false, tmpDirRemoved := true }
  else
    match env.producerSent with
    | some st =>
        { result := some (.archive st), producerStarted := true, pipeCloseCount := 1
          joinedProducer := true, tmpDirRemoved := true }
    | none =>
        { result := none, producerStarted := true, pipeCloseCount := 1
          joinedProducer := true, tmpDirRemoved := true }

/-! ## internal/utils: WriteDirectoryToTar and ExtractTar

A directory tree is modelled as a forest of named nodes; file contents are
byte lists, symlink targets are strings.  Tar entries carry the fields the
source reads back: the relative name (as path segments), the type flag, the
body for regular files and the linkname for symlinks.  Ownership, modes and
times are carried by the source but are outside the scope of the claims
below.  The destination filesystem reached by the extractor is an
association list from relative paths to leaves; the destination directory
itself (relative path nil) exists implicitly.

filepath.Walk visits each directory's children in lexical order; the model
visits them in forest order, and no property below depends on which total
order is used. -/

/-- A relative path as a list of name segments. -/
abbrev FsPath := List String

mutual

/-- A filesystem node: regular file, symlink, or directory. -/
inductive FNode where
  | file (contents : List Nat)
  | symlink (target : String)
  | dir (children : FForest)

/-- A forest of named nodes (the children of one directory). -/
inductive FForest where
  | nil
  | cons (name : String) (node : FNode) (rest : FForest)

end

/-- Tar header type flags produced and consumed by the source (plus the
catch-all the extractor skips). -/
inductive TarType where
  | dir
  | reg
  | symlink
  | unsupported
  deriving Repr, DecidableEq

/-- One tar entry: header name (relative path), type flag, body (regular
file contents) and linkname (symlink target). -/
structure TarEntry where
  name : FsPath
  typeflag : TarType
  body : List Nat
  linkname : String
  deriving Repr, DecidableEq

mutual

/-- Walk of one node at relative path p, in the order filepath.Walk emits
entries: the node itself, then (for directories) its children. -/
def tarNode (p : FsPath) : FNode → List TarEntry
  | .file c => [⟨p, .reg, c, ""⟩]
  | .symlink t => [⟨p, .symlink, [], t⟩]
  | .dir f => ⟨p, .dir, [], ""⟩ :: tarForest p f

/-- Walk of the children of the directory at relative path p. -/
def tarForest (p : FsPath) : FForest → List TarEntry
  | .nil => []
  | .cons n node rest => tarNode (p ++ [n]) node ++ tarForest p rest

end

/-- Model of WriteDirectoryToTar from internal/utils/utils.go: the walk
starts at the source root, which itself is skipped (relPath "."), and every
descendant yields one entry named by its relative path. -/
def writeDirectoryToTar (d : FForest) : List TarEntry :=
  tarForest [] d

/-- A leaf recorded in the extracted filesystem. -/
inductive Leaf where
  | dirE
  | fileE (contents : List Nat)
  | linkE (target : String)
  deriving Repr, DecidableEq

/-- The extracted filesystem: relative path to leaf, unique keys. -/
abbrev FsMap := List (FsPath × Leaf)

/-- Lookup in the extracted filesystem. -/
def fsFind : FsMap → FsPath → Option Leaf
  | [], _ => none
  | p :: rest, k => if p.1 = k then some p.2 else fsFind rest k

/-- Write: replace in place when the path is present, append when absent. -/
def fsSet : FsMap → FsPath → Leaf → FsMap
  | [], k, v => [(k, v)]
  | p :: rest, k, v => if p.1 = k then (k, v) :: rest else p :: fsSet rest k v

/-- Paths present in the extracted filesystem. -/
def fsKeys (m : FsMap) : List FsPath :=
  m.map Prod.fst

/-- All nonempty prefixes of a path, shortest first. -/
def allPrefixes (p : FsPath) : List FsPath :=
  (List.range p.length).map (fun i => p.take (i + 1))

/-- Model of os.MkdirAll: create every missing directory along the path and
fail when an existing component is not a directory. -/
def mkdirAll (m : FsMap) (p : FsPath) : Except String FsMap :=
  (allPrefixes p).foldlM
    (fun acc q =>
      match fsFind acc q with
      | none => .ok (fsSet acc q .dirE)
      | some .dirE => .ok acc
      | some _ => .error "mkdir over a non-directory")
    m

/-- One iteration of the ExtractTar loop, mirroring the Go switch on the
header type flag.  os.Create truncates an existing regular file and fails on
a directory; the model treats creating over an existing symlink as a failure
as well (the source would follow the link, which the extracted-tree claims
never exercise).  os.Symlink fails when the target path already exists.
Unsupported types are skipped. -/
def extractStep (m : FsMap) (e : TarEntry) : Except String FsMap :=
  match e.typeflag with
  | .dir => mkdirAll m e.name
  | .reg => do
      let m1 ← mkdirAll m e.name.dropLast
      match fsFind m1 e.name with
      | some .dirE => .error "create over a directory"
      | some (.linkE _) => .error "create over a symlink"
      | _ => .ok (fsSet m1 e.name (.fileE e.body))
  | .symlink => do
      let m1 ← mkdirAll m e.name.dropLast
      match fsFind m1 e.name with
      | some _ => .error "symlink target path exists"
      | none => .ok (fsSet m1 e.name (.linkE e.linkname))
  | .unsupported => .ok m

/-- Model of ExtractTar from internal/utils/utils.go: ensure the destination
exists (the empty map is the fresh destination), then process the entries in
stream order. -/
def extractTar (entries : List TarEntry) : Except String FsMap :=
  entries.foldlM extractStep []

mutual

/-- The intended contents of the extraction target for one node: the node's
own leaf at its path followed by (for directories) its descendants. -/
def fsOfNode (p : FsPath) : FNode → FsMap
  | .file c => [(p, .fileE c)]
  | .symlink t => [(p, .linkE t)]
  | .dir f => (p, .dirE) :: fsOfForest p f

/-- The intended contents of the extraction target for a forest rooted at p. -/
def fsOfForest (p : FsPath) : FForest → FsMap
  | .nil => []
  | .cons n node rest => fsOfNode (p ++ [n]) node ++ fsOfForest p rest

end

/-- Names of the top-level entries of a forest. -/
def forestNames : FForest → List String
  | .nil => []
  | .cons n _ rest => n :: forestNames rest

mutual

/-- Well-formedness of a node: directory listings carry pairwise distinct
names. -/
def wfNode : FNode → Bool
  | .file _ => true
  | .symlink _ => true
  | .dir f => wfForest f

/-- Well-formedness of a forest. -/
def wfForest : FForest → Bool
  | .nil => true
  | .cons n node rest =>
      !(forestNames rest).contains n && wfNode node && wfForest rest

end

/-- The writer chain of createAndUploadEncryptedDump: tar entries serialized
to a byte stream, compressed, then encrypted.  The serialization, the
compressor and the encryptor are stage parameters: they are external
libraries (archive/tar framing, compress/gzip, filippo.io/age), and the
claims constrain them only through explicit round-trip hypotheses. -/
def exportArchive {β γ δ : Type} (serialTar : List TarEntry → β) (gzipC : β → γ)
    (ageEnc : γ → δ) (d : FForest) : δ :=
  ageEnc (gzipC (serialTar (writeDirectoryToTar d)))

/-- The reader chain of the cli restore command: decrypt, decompress, parse
the tar stream, and extract into a fresh destination. -/
def restoreArchive {β γ δ : Type} (ageDec : δ → γ) (gunzipC : γ → β)
    (parseTar : β → List TarEntry) (bytes : δ) : Except String FsMap :=
  extractTar (parseTar (gunzipC (ageDec bytes)))

/-! ## Spec-side observations used to state the reconciliation properties -/

/-- Number of snapshots carrying a backup name. -/
def countMatch : List Snapshot → String → Int
  | [], _ => 0
  | s :: rest, n => (if s.name = n then 1 else 0) + countMatch rest n

/-- The last snapshot carrying a backup name, in the order the listing
returns the snapshots (the overwrite order of the reconciliation fold). -/
def lastWith : List Snapshot → String → Option Snapshot
  | [], _ => none
  | s :: rest, n =>
      match lastWith rest n with
      | some t => some t
      | none => if s.name = n then some s else none

/-- Latest-size figure the repository fold leaves for a name: the last
matching snapshot's data-added figure, zero when the name has no snapshot. -/
def sizeOfLast (ss : List Snapshot) (n : String) : Int :=
  match lastWith ss n with
  | some s => s.dataAddedPacked
  | none => 0

/-- Latest-time figure the repository fold leaves for a name. -/
def timeOfLast (ss : List Snapshot) (n : String) : Int :=
  match lastWith ss n with
  | some s => s.time
  | none => 0

/-- Number of object versions carrying a derived backup name. -/
def countObj : List S3Object → String → Int
  | [], _ => 0
  | o :: rest, n => (if o.backupName = n then 1 else 0) + countObj rest n

/-- Total size of the object versions carrying a derived backup name. -/
def sumSizes : List S3Object → String → Int
  | [], _ => 0
  | o :: rest, n => (if o.backupName = n then o.size else 0) + sumSizes rest n

/-- The last latest-flagged object version carrying a derived backup name,
in listing order (the overwrite order of the object fold). -/
def lastLatest : List S3Object → String → Option S3Object
  | [], _ => none
  | o :: rest, n =>
      match lastLatest rest n with
      | some t => some t
      | none => if o.backupName = n ∧ o.isLatest then some o else none

/-- Latest-size figure the object fold leaves for a name. -/
def objSizeOfLatest (os : List S3Object) (n : String) : Int :=
  match lastLatest os n with
  | some o => o.size
  | none => 0

/-- Latest-time figure the object fold leaves for a name. -/
def objTimeOfLatest (os : List S3Object) (n : String) : Int :=
  match lastLatest os n with
  | some o => o.createdAt
  | none => 0

/-- The objects produced by a successful listing of the given raw versions
(name derivation applied). -/
def derivedObjects (ro : List RawObject) : List S3Object :=
  ro.map fun o =>
    { backupName := goTrimSuf o.key ".tar.gz.age"
      size := o.size
      createdAt := o.lastModified
      isLatest := o.isLatest }

/-! ## Theorems -/

/-- Successful listing yields exactly the derived objects. -/
theorem listObjects_ok (ro : List RawObject) :
    listObjects (.ok ro) = .ok (derivedObjects ro) := rfl

/-- Reading the key just written. -/
theorem GoMap.get_set_self (m : GoMap) (k : String) (v : Int) :
    (m.set k v).get k = v := by
  induction m with
  | nil => simp [GoMap.set, GoMap.get, List.find?]
  | cons p rest ih =>
      by_cases h : p.1 = k
      · simp [GoMap.set, h, GoMap.get, List.find?]
      · simpa [GoMap.set, h, GoMap.get, List.find?] using ih

/-- Reading another key after a write. -/
theorem GoMap.get_set_ne (m : GoMap) (k n : String) (v : Int) (h : n ≠ k) :
    (m.set k v).get n = m.get n := by
  induction m with
  | nil => simp [GoMap.set, GoMap.get, List.find?, h, Ne.symm h]
  | cons p rest ih =>
      by_cases hp : p.1 = k
      · subst hp
        simp [GoMap.set, GoMap.get, List.find?, h, Ne.symm h]
      · by_cases hn : p.1 = n
        · simp [GoMap.set, hp, GoMap.get, List.find?, hn, h, Ne.symm h]
        · simpa [GoMap.set, hp, GoMap.get, List.find?, hn] using ih

/-- Key membership after a write. -/
theorem GoMap.mem_keys_set (m : GoMap) (k n : String) (v : Int) :
    n ∈ (m.set k v).keys ↔ n ∈ m.keys ∨ n = k := by
  induction m with
  | nil => simp [GoMap.set, GoMap.keys]
  | cons p rest ih =>
      by_cases hp : p.1 = k
      · subst hp
        simp [GoMap.set, GoMap.keys]
        tauto
      · simp [GoMap.set, hp, GoMap.keys] at ih ⊢
        tauto

/-- Membership in the name set built with insertNew. -/
theorem mem_insertNew (l : List String) (k n : String) :
    n ∈ insertNew l k ↔ n ∈ l ∨ n = k := by
  by_cases h : k ∈ l
  · simp only [insertNew, if_pos h]
    constructor
    · exact Or.inl
    · rintro (hn | rfl) <;> [exact hn; exact h]
  · simp [insertNew, if_neg h]

/-- insertNew preserves duplicate freedom. -/
theorem nodup_insertNew (l : List String) (k : String) (h : l.Nodup) :
    (insertNew l k).Nodup := by
  by_cases hk : k ∈ l
  · simpa [insertNew, hk] using h
  · have hd : l.Disjoint [k] := by
      intro a ha hb
      simp only [List.mem_singleton] at hb
      exact hk (hb ▸ ha)
    simpa [insertNew, hk] using h.append (List.nodup_singleton k) hd

/-- Characterization of getNameFromTags: the first tag carrying the marker
wins, and without any marked tag the id is returned. -/
theorem getNameFromTags_spec (tags : List String) (id : String) :
    (∀ t, tags.find? (fun t => strHasPre "name=" t) = some t →
      getNameFromTags tags id = goTrimPre t "name=") ∧
    ((∀ t ∈ tags, strHasPre "name=" t = false) → getNameFromTags tags id = id) := by
  induction tags with
  | nil =>
      refine ⟨fun t h => by simp [List.find?] at h, fun _ => rfl⟩
  | cons t rest ih =>
      by_cases hpre : strHasPre "name=" t
      · refine ⟨fun u hu => ?_, fun hall => ?_⟩
        · rw [List.find?_cons_of_pos _ hpre] at hu
          cases hu
          simp [getNameFromTags, hpre]
        · exact absurd (hall t (List.mem_cons_self t rest)) (by simp [hpre])
      · have hpre' : strHasPre "name=" t = false := by
          simpa using hpre
        refine ⟨fun u hu => ?_, fun hall => ?_⟩
        · rw [List.find?_cons_of_neg _ (by simp [hpre'])] at hu
          simpa [getNameFromTags, hpre'] using (ih.1 u hu)
        · have := ih.2 (fun u hu => hall u (List.mem_cons_of_mem t hu))
          simpa [getNameFromTags, hpre'] using this

/-- C8: snapshot name resolution — if some tag in the tag set carries the
name marker, the resolved backup name is the first such tag with the marker
stripped; if no tag carries it, the resolved name is the snapshot's own
identifier string. -/
theorem claimC8_snapshot_name_resolution (s : Snapshot) :
    (∀ t, s.tags.find? (fun t => strHasPre "name=" t) = some t →
      s.name = goTrimPre t "name=") ∧
    ((∀ t ∈ s.tags, strHasPre "name=" t = false) → s.name = s.id) :=
  getNameFromTags_spec s.tags s.id

/-- Witness for C8 at a concrete snapshot: a tag list whose first marked tag
is name=foo resolves to foo, and a tagless snapshot resolves to its id. -/
theorem claimC8_witness :
    (Snapshot.mk "id1" 0 ["keep", "name=foo", "name=bar"] 0).name = "foo" ∧
    (Snapshot.mk "id2" 0 ["keep"] 0).name = "id2" := by
  constructor
  · have h := (claimC8_snapshot_name_resolution
      (Snapshot.mk "id1" 0 ["keep", "name=foo", "name=bar"] 0)).1 "name=foo" (by decide)
    rw [h]; decide
  · exact (claimC8_snapshot_name_resolution
      (Snapshot.mk "id2" 0 ["keep"] 0)).2 (by decide)

/-- C6: NewRestic succeeds when the repository exists and the password
validates; when the path is absent it initializes a new repository and
succeeds, or fails with an initialization error when the creation fails; and
it fails with an authentication error exactly when the repository exists and
the password does not validate. -/
theorem claimC6_open_repository (stat : StatOutcome) (passwordOk initOk : Bool) :
    ((stat = .present ∧ passwordOk = true) →
      newRestic stat passwordOk initOk = .opened) ∧
    (stat = .absent →
      (initOk = true → newRestic stat passwordOk initOk = .opened) ∧
      (initOk = false → newRestic stat passwordOk initOk = .initError)) ∧
    (newRestic stat passwordOk initOk = .authError ↔
      stat = .present ∧ passwordOk = false) := by
  cases stat <;> cases passwordOk <;> cases initOk <;>
    simp [newRestic, resticExists]

/-- Witness for C6 at concrete inputs: an existing repository with a valid
password opens, and an absent repository whose creation fails reports the
initialization error. -/
theorem claimC6_witness :
    newRestic .present true true = .opened ∧
    newRestic .absent true false = .initError :=
  ⟨(claimC6_open_repository .present true true).1 ⟨rfl, rfl⟩,
   ((claimC6_open_repository .absent true false).2.1 rfl).2 rfl⟩

/-- C3 fails on the code: at startup NewMetrics registers no per-backup-name
series at all — with backup name db configured, the per-name count gauge and
error counter are both absent from the registry before any job has run. -/
theorem claimC3_counterexample :
    (serverStartupMetrics ["db"]).resticSnapshotCount "db" = none ∧
    (serverStartupMetrics ["db"]).resticSnapshotErrors "db" = none ∧
    (serverStartupMetrics ["db"]).s3SnapshotCount "db" = none :=
  ⟨rfl, rfl, rfl⟩

/-- C3 as amended: at startup, before any job has run, exactly the five
operation-class scheduler error counters are pre-registered at zero; every
per-backup-name series (gauges and error counters, repository and export
side) is absent until first written, whatever the configured backup list. -/
theorem claimC3_amended_startup_series (configured : List String) :
    ((serverStartupMetrics configured).schedulerErrors SchedulerErrorResticCheck = some 0 ∧
     (serverStartupMetrics configured).schedulerErrors SchedulerErrorResticForgetAndPrune = some 0 ∧
     (serverStartupMetrics configured).schedulerErrors SchedulerErrorResticListSnapshots = some 0 ∧
     (serverStartupMetrics configured).schedulerErrors SchedulerErrorResticGetSnapshotStats = some 0 ∧
     (serverStartupMetrics configured).schedulerErrors SchedulerErrorS3ListObjects = some 0) ∧
    (∀ name : String,
      (serverStartupMetrics configured).resticSnapshotErrors name = none ∧
      (serverStartupMetrics configured).resticSnapshotLatestDuration name = none ∧
      (serverStartupMetrics configured).resticSnapshotLatestSize name = none ∧
      (serverStartupMetrics configured).resticSnapshotLatestTimestamp name = none ∧
      (serverStartupMetrics configured).resticSnapshotCount name = none ∧
      (serverStartupMetrics configured).resticSnapshotTotalSize name = none ∧
      (serverStartupMetrics configured).s3SnapshotErrors name = none ∧
      (serverStartupMetrics configured).s3SnapshotLatestDuration name = none ∧
      (serverStartupMetrics configured).s3SnapshotLatestUploadDuration name = none ∧
      (serverStartupMetrics configured).s3SnapshotLatestSize name = none ∧
      (serverStartupMetrics configured).s3SnapshotLatestTimestamp name = none ∧
      (serverStartupMetrics configured).s3SnapshotCount name = none ∧
      (serverStartupMetrics configured).s3SnapshotTotalSize name = none) := by
  refine ⟨⟨rfl, rfl, rfl, rfl, rfl⟩, fun name => ?_⟩
  exact ⟨rfl, rfl, rfl, rfl, rfl, rfl, rfl, rfl, rfl, rfl, rfl, rfl, rfl⟩

/-- C1 fails on the code: when the streaming upload fails, the caller
returns the upload error immediately, without joining on the producer
goroutine's outcome (here the producer side succeeded). -/
theorem claimC1_counterexample :
    (createAndUploadEncryptedDump ⟨true, true, none, false⟩).joinedProducer = false ∧
    (createAndUploadEncryptedDump ⟨true, true, none, false⟩).result = some .upload :=
  ⟨rfl, rfl⟩

/-- C1 as amended: on every run in which the producer goroutine starts, its
write side of the pipe is closed exactly once; when the upload fails the
function returns the upload error immediately without joining on the
producer; when the upload succeeds the caller joins on the producer's
outcome and surfaces its error; if both sides succeed no error is
returned.  The deferred temporary-directory removal runs on every path
after a successful MkdirTemp. -/
theorem claimC1_amended_pipeline_join (env : DumpEnv)
    (hmk : env.mkTempOk = true) (hrt : env.restoreOk = true) :
    (createAndUploadEncryptedDump env).producerStarted = true ∧
    (createAndUploadEncryptedDump env).pipeCloseCount = 1 ∧
    (createAndUploadEncryptedDump env).tmpDirRemoved = true ∧
    (env.uploadOk = false →
      (createAndUploadEncryptedDump env).result = some .upload ∧
      (createAndUploadEncryptedDump env).joinedProducer = false) ∧
    (env.uploadOk = true →
      (createAndUploadEncryptedDump env).joinedProducer = true ∧
      (∀ st, env.producerSent = some st →
        (createAndUploadEncryptedDump env).result = some (.archive st)) ∧
      (env.producerSent = none →
        (createAndUploadEncryptedDump env).result = none)) := by
  obtain ⟨mk, rt, sent, up⟩ := env
  cases mk <;> cases rt <;> cases up <;> cases sent <;>
    simp_all [createAndUploadEncryptedDump]

/-- Witness for C1 as amended, at a run where everything succeeds: the pipe
write side is closed once, the caller joins, and no error is returned. -/
theorem claimC1_witness :
    (createAndUploadEncryptedDump ⟨true, true, none, true⟩).pipeCloseCount = 1 ∧
    (createAndUploadEncryptedDump ⟨true, true, none, true⟩).joinedProducer = true ∧
    (createAndUploadEncryptedDump ⟨true, true, none, true⟩).result = none := by
  have h := claimC1_amended_pipeline_join ⟨true, true, none, true⟩ rfl rfl
  exact ⟨h.2.1, (h.2.2.2.2 rfl).1, (h.2.2.2.2 rfl).2.2 rfl⟩

/-- Effect of the configured-name zero-initialization fold on the snapshot
maps: listed names read zero, other names are untouched, the key set grows
by the listed names, and the seen-name set is untouched. -/
theorem snapZero_go (backups : List String) (st : SnapFold) (n : String) :
    ((backups.foldl snapZeroStep st).count.get n =
      if n ∈ backups then 0 else st.count.get n) ∧
    ((backups.foldl snapZeroStep st).totalSize.get n =
      if n ∈ backups then 0 else st.totalSize.get n) ∧
    ((backups.foldl snapZeroStep st).latestSize.get n =
      if n ∈ backups then 0 else st.latestSize.get n) ∧
    ((backups.foldl snapZeroStep st).latestTime.get n =
      if n ∈ backups then 0 else st.latestTime.get n) ∧
    ((backups.foldl snapZeroStep st).snapNames = st.snapNames) ∧
    (n ∈ (backups.foldl snapZeroStep st).count.keys ↔
      n ∈ st.count.keys ∨ n ∈ backups) := by
  induction backups generalizing st with
  | nil => simp
  | cons b bs ih =>
      obtain ⟨ih1, ih2, ih3, ih4, ih5, ih6⟩ := ih (snapZeroStep st b)
      have e1 : (snapZeroStep st b).count.get n = if n = b then 0 else st.count.get n := by
        by_cases hb : n = b
        · subst hb; simpa [snapZeroStep] using GoMap.get_set_self st.count n 0
        · simpa [snapZeroStep, hb] using GoMap.get_set_ne st.count b n 0 hb
      have e2 : (snapZeroStep st b).totalSize.get n = if n = b then 0 else st.totalSize.get n := by
        by_cases hb : n = b
        · subst hb; simpa [snapZeroStep] using GoMap.get_set_self st.totalSize n 0
        · simpa [snapZeroStep, hb] using GoMap.get_set_ne st.totalSize b n 0 hb
      have e3 : (snapZeroStep st b).latestSize.get n = if n = b then 0 else st.latestSize.get n := by
        by_cases hb : n = b
        · subst hb; simpa [snapZeroStep] using GoMap.get_set_self st.latestSize n 0
        · simpa [snapZeroStep, hb] using GoMap.get_set_ne st.latestSize b n 0 hb
      have e4 : (snapZeroStep st b).latestTime.get n = if n = b then 0 else st.latestTime.get n := by
        by_cases hb : n = b
        · subst hb; simpa [snapZeroStep] using GoMap.get_set_self st.latestTime n 0
        · simpa [snapZeroStep, hb] using GoMap.get_set_ne st.latestTime b n 0 hb
      have e5 : (snapZeroStep st b).snapNames = st.snapNames := rfl
      have e6 : n ∈ (snapZeroStep st b).count.keys ↔ n ∈ st.count.keys ∨ n = b := by
        simpa [snapZeroStep] using GoMap.mem_keys_set st.count b n 0
      rw [List.foldl_cons]
      refine ⟨?_, ?_, ?_, ?_, ?_, ?_⟩
      · rw [ih1, e1]; by_cases hmem : n ∈ bs <;> by_cases hb : n = b <;> simp [hmem, hb]
      · rw [ih2, e2]; by_cases hmem : n ∈ bs <;> by_cases hb : n = b <;> simp [hmem, hb]
      · rw [ih3, e3]; by_cases hmem : n ∈ bs <;> by_cases hb : n = b <;> simp [hmem, hb]
      · rw [ih4, e4]; by_cases hmem : n ∈ bs <;> by_cases hb : n = b <;> simp [hmem, hb]
      · rw [ih5, e5]
      · rw [ih6, e6]
        simp only [List.mem_cons]
        tauto

/-- Effect of the snapshot accumulation fold: the count grows by the number
of matching snapshots, the total-size map is untouched, the latest cells
hold the last matching snapshot's figures, the seen-name set and the key
set grow by the snapshot names, and duplicate freedom of the seen-name set
is preserved. -/
theorem snapStep_go (ss : List Snapshot) (st : SnapFold) (n : String) :
    ((ss.foldl snapFoldStep st).count.get n = st.count.get n + countMatch ss n) ∧
    ((ss.foldl snapFoldStep st).totalSize = st.totalSize) ∧
    ((ss.foldl snapFoldStep st).latestSize.get n =
      match lastWith ss n with
      | some s => s.dataAddedPacked
      | none => st.latestSize.get n) ∧
    ((ss.foldl snapFoldStep st).latestTime.get n =
      match lastWith ss n with
      | some s => s.time
      | none => st.latestTime.get n) ∧
    (n ∈ (ss.foldl snapFoldStep st).snapNames ↔
      n ∈ st.snapNames ∨ n ∈ ss.map Snapshot.name) ∧
    (st.snapNames.Nodup → (ss.foldl snapFoldStep st).snapNames.Nodup) ∧
    (n ∈ (ss.foldl snapFoldStep st).count.keys ↔
      n ∈ st.count.keys ∨ n ∈ ss.map Snapshot.name) := by
  induction ss generalizing st with
  | nil => simp [countMatch, lastWith]
  | cons s rest ih =>
      obtain ⟨ih1, ih2, ih3, ih4, ih5, ih6, ih7⟩ := ih (snapFoldStep st s)
      have hnames : (snapFoldStep st s).snapNames = insertNew st.snapNames s.name := rfl
      have hcons : lastWith (s :: rest) n =
          match lastWith rest n with
          | some t => some t
          | none => if s.name = n then some s else none := rfl
      have c1 : (snapFoldStep st s).count.get n =
          if s.name = n then st.count.get n + 1 else st.count.get n := by
        by_cases hb : s.name = n
        · subst hb; simpa [snapFoldStep] using
            GoMap.get_set_self st.count s.name (st.count.get s.name + 1)
        · simpa [snapFoldStep, hb] using
            GoMap.get_set_ne st.count s.name n _ (fun h => hb h.symm)
      have l1 : (snapFoldStep st s).latestSize.get n =
          if s.name = n then s.dataAddedPacked else st.latestSize.get n := by
        by_cases hb : s.name = n
        · subst hb; simpa [snapFoldStep] using
            GoMap.get_set_self st.latestSize s.name s.dataAddedPacked
        · simpa [snapFoldStep, hb] using
            GoMap.get_set_ne st.latestSize s.name n _ (fun h => hb h.symm)
      have l2 : (snapFoldStep st s).latestTime.get n =
          if s.name = n then s.time else st.latestTime.get n := by
        by_cases hb : s.name = n
        · subst hb; simpa [snapFoldStep] using
            GoMap.get_set_self st.latestTime s.name s.time
        · simpa [snapFoldStep, hb] using
            GoMap.get_set_ne st.latestTime s.name n _ (fun h => hb h.symm)
      refine ⟨?_, ?_, ?_, ?_, ?_, ?_, ?_⟩
      · rw [List.foldl_cons, ih1, c1]
        by_cases hb : s.name = n <;> simp [countMatch, hb] <;> omega
      · rw [List.foldl_cons, ih2]; rfl
      · rw [List.foldl_cons, ih3, hcons]
        rcases h : lastWith rest n with _ | t
        · rw [l1]
          by_cases hb : s.name = n <;> simp [hb]
        · rfl
      · rw [List.foldl_cons, ih4, hcons]
        rcases h : lastWith rest n with _ | t
        · rw [l2]
          by_cases hb : s.name = n <;> simp [hb]
        · rfl
      · rw [List.foldl_cons, ih5, hnames, mem_insertNew]
        simp only [List.map_cons, List.mem_cons]
        exact or_assoc
      · intro hnd
        rw [List.foldl_cons]
        exact ih6 (by rw [hnames]; exact nodup_insertNew _ _ hnd)
      · rw [List.foldl_cons, ih7]
        have hk : n ∈ (snapFoldStep st s).count.keys ↔ n ∈ st.count.keys ∨ n = s.name := by
          simpa [snapFoldStep] using GoMap.mem_keys_set st.count s.name n _
        rw [hk]
        simp only [List.map_cons, List.mem_cons]
        exact or_assoc

/-- When every stats query succeeds, the stats loop leaves the metrics alone
and adds each queried name's figure into its total-size cell exactly once. -/
theorem statsLoop_ok (stats : String → Except Unit Int) (v : String → Int)
    (hv : ∀ k, stats k = .ok (v k)) :
    ∀ (l : List String) (m : Metrics) (total : GoMap), l.Nodup →
      ∃ total', statsLoop stats m total l = (m, .ok total') ∧
        ∀ n, total'.get n = total.get n + (if n ∈ l then v n else 0) := by
  intro l
  induction l with
  | nil =>
      intro m total _
      exact ⟨total, rfl, fun n => by simp⟩
  | cons k rest ih =>
      intro m total hnd
      obtain ⟨hk, hrest⟩ := List.nodup_cons.mp hnd
      obtain ⟨total', heq, hval⟩ := ih m (total.set k (total.get k + v k)) hrest
      refine ⟨total', ?_, ?_⟩
      · simp only [statsLoop, hv k]
        exact heq
      · intro n
        by_cases hn : n = k
        · subst hn
          rw [hval n, GoMap.get_set_self]
          simp [hk]
        · rw [hval n, GoMap.get_set_ne _ _ _ _ hn]
          simp [hn]

/-- The stats loop never touches the per-name error counters or duration
gauges, whichever path it takes. -/
theorem statsLoop_frame (stats : String → Except Unit Int) :
    ∀ (l : List String) (m : Metrics) (total : GoMap),
      (statsLoop stats m total l).1.resticSnapshotErrors = m.resticSnapshotErrors ∧
      (statsLoop stats m total l).1.resticSnapshotLatestDuration =
        m.resticSnapshotLatestDuration := by
  intro l
  induction l with
  | nil => intro m total; exact ⟨rfl, rfl⟩
  | cons k rest ih =>
      intro m total
      rcases h : stats k with _ | v
      · simp only [statsLoop, h]
        exact ⟨rfl, rfl⟩
      · simp only [statsLoop, h]
        exact ih m _

/-- Effect of the repository publication fold: every listed name's four
gauges are set to the fold values, unlisted names keep their series, and all
other metric fields are untouched. -/
theorem setResticStatsFold_spec (st : SnapFold) :
    ∀ (names : List String) (m : Metrics) (n : String),
      (n ∈ names →
        (setResticStatsFold st names m).resticSnapshotCount n = some (st.count.get n) ∧
        (setResticStatsFold st names m).resticSnapshotTotalSize n = some (st.totalSize.get n) ∧
        (setResticStatsFold st names m).resticSnapshotLatestSize n = some (st.latestSize.get n) ∧
        (setResticStatsFold st names m).resticSnapshotLatestTimestamp n =
          some (st.latestTime.get n)) ∧
      (n ∉ names →
        (setResticStatsFold st names m).resticSnapshotCount n = m.resticSnapshotCount n ∧
        (setResticStatsFold st names m).resticSnapshotTotalSize n = m.resticSnapshotTotalSize n ∧
        (setResticStatsFold st names m).resticSnapshotLatestSize n = m.resticSnapshotLatestSize n ∧
        (setResticStatsFold st names m).resticSnapshotLatestTimestamp n =
          m.resticSnapshotLatestTimestamp n) ∧
      (setResticStatsFold st names m).schedulerErrors = m.schedulerErrors ∧
      (setResticStatsFold st names m).resticSnapshotErrors = m.resticSnapshotErrors ∧
      (setResticStatsFold st names m).resticSnapshotLatestDuration =
        m.resticSnapshotLatestDuration ∧
      (setResticStatsFold st names m).s3SnapshotErrors = m.s3SnapshotErrors ∧
      (setResticStatsFold st names m).s3SnapshotLatestDuration = m.s3SnapshotLatestDuration ∧
      (setResticStatsFold st names m).s3SnapshotLatestUploadDuration =
        m.s3SnapshotLatestUploadDuration ∧
      (setResticStatsFold st names m).s3SnapshotCount = m.s3SnapshotCount ∧
      (setResticStatsFold st names m).s3SnapshotTotalSize = m.s3SnapshotTotalSize ∧
      (setResticStatsFold st names m).s3SnapshotLatestSize = m.s3SnapshotLatestSize ∧
      (setResticStatsFold st names m).s3SnapshotLatestTimestamp = m.s3SnapshotLatestTimestamp := by
  intro names
  induction names with
  | nil =>
      intro m n
      exact ⟨fun h => absurd h (List.not_mem_nil n), fun _ => ⟨rfl, rfl, rfl, rfl⟩,
        rfl, rfl, rfl, rfl, rfl, rfl, rfl, rfl, rfl, rfl⟩
  | cons k rest ih =>
      intro m n
      set m1 := m.setResticStatsByBackupName k (st.count.get k) (st.totalSize.get k)
        (st.latestSize.get k) (st.latestTime.get k) with hm1
      have hfold : setResticStatsFold st (k :: rest) m = setResticStatsFold st rest m1 := rfl
      obtain ⟨ihin, ihout, ihf⟩ := ih m1 n
      have p1 : m1.resticSnapshotCount n =
          if n = k then some (st.count.get k) else m.resticSnapshotCount n := by
        rw [hm1]; rfl
      have p2 : m1.resticSnapshotTotalSize n =
          if n = k then some (st.totalSize.get k) else m.resticSnapshotTotalSize n := by
        rw [hm1]; rfl
      have p3 : m1.resticSnapshotLatestSize n =
          if n = k then some (st.latestSize.get k) else m.resticSnapshotLatestSize n := by
        rw [hm1]; rfl
      have p4 : m1.resticSnapshotLatestTimestamp n =
          if n = k then some (st.latestTime.get k) else m.resticSnapshotLatestTimestamp n := by
        rw [hm1]; rfl
      have hframe : (setResticStatsFold st (k :: rest) m).schedulerErrors = m.schedulerErrors ∧
          (setResticStatsFold st (k :: rest) m).resticSnapshotErrors = m.resticSnapshotErrors ∧
          (setResticStatsFold st (k :: rest) m).resticSnapshotLatestDuration =
            m.resticSnapshotLatestDuration ∧
          (setResticStatsFold st (k :: rest) m).s3SnapshotErrors = m.s3SnapshotErrors ∧
          (setResticStatsFold st (k :: rest) m).s3SnapshotLatestDuration =
            m.s3SnapshotLatestDuration ∧
          (setResticStatsFold st (k :: rest) m).s3SnapshotLatestUploadDuration =
            m.s3SnapshotLatestUploadDuration ∧
          (setResticStatsFold st (k :: rest) m).s3SnapshotCount = m.s3SnapshotCount ∧
          (setResticStatsFold st (k :: rest) m).s3SnapshotTotalSize = m.s3SnapshotTotalSize ∧
          (setResticStatsFold st (k :: rest) m).s3SnapshotLatestSize = m.s3SnapshotLatestSize ∧
          (setResticStatsFold st (k :: rest) m).s3SnapshotLatestTimestamp =
            m.s3SnapshotLatestTimestamp := by
        rw [hfold]
        obtain ⟨f1, f2, f3, f4, f5, f6, f7, f8, f9, f10⟩ := ihf
        rw [f1, f2, f3, f4, f5, f6, f7, f8, f9, f10, hm1]
        exact ⟨rfl, rfl, rfl, rfl, rfl, rfl, rfl, rfl, rfl, rfl⟩
      by_cases hmem : n ∈ rest
      · exact ⟨fun _ => ihin hmem, fun hno => absurd (List.mem_cons_of_mem k hmem) hno, hframe⟩
      · obtain ⟨o1, o2, o3, o4⟩ := ihout hmem
        by_cases hk : n = k
        · refine ⟨fun _ => ?_, fun hno => absurd (hk ▸ List.mem_cons_self k rest) hno, hframe⟩
          rw [hfold, o1, o2, o3, o4, p1, p2, p3, p4]
          subst hk
          simp
        · refine ⟨fun hin => ?_, fun _ => ?_, hframe⟩
          · rcases List.mem_cons.mp hin with hin | hin
            · exact absurd hin hk
            · exact absurd hin hmem
          · rw [hfold, o1, o2, o3, o4, p1, p2, p3, p4]
            simp [hk]

/-- Full characterization of a successful repository reconciliation pass:
the pass reports success, every configured or observed backup name gets its
four gauges set to the fold figures, and every other metric field of the
registry is untouched. -/
theorem updateResticMetrics_ok (backups : List String) (ss : List Snapshot)
    (v : String → Int) (env : ResticEnv) (m : Metrics)
    (hs : env.snapshots = .ok ss) (hv : ∀ k, env.stats k = .ok (v k)) :
    (updateResticMetrics backups env m).2 = true ∧
    (∀ n, (n ∈ backups ∨ n ∈ ss.map Snapshot.name) →
      (updateResticMetrics backups env m).1.resticSnapshotCount n = some (countMatch ss n) ∧
      (updateResticMetrics backups env m).1.resticSnapshotTotalSize n =
        some (if n ∈ ss.map Snapshot.name then v n else 0) ∧
      (updateResticMetrics backups env m).1.resticSnapshotLatestSize n =
        some (sizeOfLast ss n) ∧
      (updateResticMetrics backups env m).1.resticSnapshotLatestTimestamp n =
        some (timeOfLast ss n)) ∧
    (updateResticMetrics backups env m).1.schedulerErrors = m.schedulerErrors ∧
    (updateResticMetrics backups env m).1.resticSnapshotErrors = m.resticSnapshotErrors ∧
    (updateResticMetrics backups env m).1.resticSnapshotLatestDuration =
      m.resticSnapshotLatestDuration ∧
    (updateResticMetrics backups env m).1.s3SnapshotErrors = m.s3SnapshotErrors ∧
    (updateResticMetrics backups env m).1.s3SnapshotLatestDuration =
      m.s3SnapshotLatestDuration ∧
    (updateResticMetrics backups env m).1.s3SnapshotLatestUploadDuration =
      m.s3SnapshotLatestUploadDuration ∧
    (updateResticMetrics backups env m).1.s3SnapshotCount = m.s3SnapshotCount ∧
    (updateResticMetrics backups env m).1.s3SnapshotTotalSize = m.s3SnapshotTotalSize ∧
    (updateResticMetrics backups env m).1.s3SnapshotLatestSize = m.s3SnapshotLatestSize ∧
    (updateResticMetrics backups env m).1.s3SnapshotLatestTimestamp =
      m.s3SnapshotLatestTimestamp := by
  have hinit : ∀ n : String,
      (snapFoldInit backups).count.get n = 0 ∧
      (snapFoldInit backups).totalSize.get n = 0 ∧
      (snapFoldInit backups).latestSize.get n = 0 ∧
      (snapFoldInit backups).latestTime.get n = 0 ∧
      (snapFoldInit backups).snapNames = [] ∧
      (n ∈ (snapFoldInit backups).count.keys ↔ n ∈ backups) := by
    intro n
    obtain ⟨h1, h2, h3, h4, h5, h6⟩ := snapZero_go backups ⟨[], [], [], [], []⟩ n
    refine ⟨?_, ?_, ?_, ?_, ?_, ?_⟩
    · show (backups.foldl snapZeroStep ⟨[], [], [], [], []⟩).count.get n = 0
      rw [h1]; simp [GoMap.get, List.find?]
    · show (backups.foldl snapZeroStep ⟨[], [], [], [], []⟩).totalSize.get n = 0
      rw [h2]; simp [GoMap.get, List.find?]
    · show (backups.foldl snapZeroStep ⟨[], [], [], [], []⟩).latestSize.get n = 0
      rw [h3]; simp [GoMap.get, List.find?]
    · show (backups.foldl snapZeroStep ⟨[], [], [], [], []⟩).latestTime.get n = 0
      rw [h4]; simp [GoMap.get, List.find?]
    · exact h5
    · show n ∈ (backups.foldl snapZeroStep ⟨[], [], [], [], []⟩).count.keys ↔ n ∈ backups
      rw [h6]; simp [GoMap.keys]
  have hfold := fun n => snapStep_go ss (snapFoldInit backups) n
  have hnodup : (ss.foldl snapFoldStep (snapFoldInit backups)).snapNames.Nodup := by
    refine (hfold "").2.2.2.2.2.1 ?_
    have h5 : (snapFoldInit backups).snapNames = [] := (hinit "").2.2.2.2.1
    rw [h5]
    exact List.nodup_nil
  obtain ⟨total', hloop, htotal⟩ :=
    statsLoop_ok env.stats v hv (ss.foldl snapFoldStep (snapFoldInit backups)).snapNames m
      (ss.foldl snapFoldStep (snapFoldInit backups)).totalSize hnodup
  have hkeys : ∀ n, n ∈ (ss.foldl snapFoldStep (snapFoldInit backups)).count.keys ↔
      (n ∈ backups ∨ n ∈ ss.map Snapshot.name) := by
    intro n
    rw [(hfold n).2.2.2.2.2.2, (hinit n).2.2.2.2.2]
  have hseen : ∀ n, n ∈ (ss.foldl snapFoldStep (snapFoldInit backups)).snapNames ↔
      n ∈ ss.map Snapshot.name := by
    intro n
    rw [(hfold n).2.2.2.2.1]
    have : (snapFoldInit backups).snapNames = [] := (hinit n).2.2.2.2.1
    simp [this]
  have hupd : updateResticMetrics backups env m =
      (setResticStatsAll
        { ss.foldl snapFoldStep (snapFoldInit backups) with totalSize := total' } m, true) := by
    simp only [updateResticMetrics, hs]
    rw [hloop]
  rw [hupd]
  set stF : SnapFold :=
    { ss.foldl snapFoldStep (snapFoldInit backups) with totalSize := total' } with hstF
  have hsame : stF.count = (ss.foldl snapFoldStep (snapFoldInit backups)).count ∧
      stF.latestSize = (ss.foldl snapFoldStep (snapFoldInit backups)).latestSize ∧
      stF.latestTime = (ss.foldl snapFoldStep (snapFoldInit backups)).latestTime ∧
      stF.totalSize = total' := by
    rw [hstF]; exact ⟨rfl, rfl, rfl, rfl⟩
  have hspec := fun n => setResticStatsFold_spec stF stF.count.keys m n
  have hall : setResticStatsAll stF m = setResticStatsFold stF stF.count.keys m := rfl
  rw [hall]
  refine ⟨rfl, ?_, ?_⟩
  · intro n hn
    have hmem : n ∈ stF.count.keys := by
      rw [hstF]
      exact (hkeys n).mpr hn
    obtain ⟨hin, _, _⟩ := hspec n
    obtain ⟨q1, q2, q3, q4⟩ := hin hmem
    have hcnt : stF.count.get n = countMatch ss n := by
      rw [hsame.1, (hfold n).1, (hinit n).1]
      omega
    have htot : stF.totalSize.get n = if n ∈ ss.map Snapshot.name then v n else 0 := by
      rw [hsame.2.2.2, htotal n, (hfold n).2.1, (hinit n).2.1]
      simp [hseen n]
    have hls : stF.latestSize.get n = sizeOfLast ss n := by
      rw [hsame.2.1, (hfold n).2.2.1]
      unfold sizeOfLast
      rcases lastWith ss n with _ | t
      · exact (hinit n).2.2.1
      · rfl
    have hlt : stF.latestTime.get n = timeOfLast ss n := by
      rw [hsame.2.2.1, (hfold n).2.2.2.1]
      unfold timeOfLast
      rcases lastWith ss n with _ | t
      · exact (hinit n).2.2.2.1
      · rfl
    rw [q1, q2, q3, q4, hcnt, htot, hls, hlt]
    exact ⟨rfl, rfl, rfl, rfl⟩
  · exact (hspec "").2.2

/-- Whatever path updateResticMetrics takes, it never touches the per-name
error counters or duration gauges. -/
theorem updateResticMetrics_frame (backups : List String) (env : ResticEnv) (m : Metrics) :
    (updateResticMetrics backups env m).1.resticSnapshotErrors = m.resticSnapshotErrors ∧
    (updateResticMetrics backups env m).1.resticSnapshotLatestDuration =
      m.resticSnapshotLatestDuration := by
  rcases hs : env.snapshots with _ | ss
  · simp only [updateResticMetrics, hs]
    exact ⟨rfl, rfl⟩
  · simp only [updateResticMetrics, hs]
    have hsl := statsLoop_frame env.stats
      (ss.foldl snapFoldStep (snapFoldInit backups)).snapNames m
      (ss.foldl snapFoldStep (snapFoldInit backups)).totalSize
    rcases hloop : statsLoop env.stats m
        (ss.foldl snapFoldStep (snapFoldInit backups)).totalSize
        (ss.foldl snapFoldStep (snapFoldInit backups)).snapNames with ⟨m', r⟩
    rw [hloop] at hsl
    rcases r with _ | total
    · exact hsl
    · obtain ⟨_, _, h3, h4, _⟩ :=
        (setResticStatsFold_spec
          { ss.foldl snapFoldStep (snapFoldInit backups) with totalSize := total }
          ({ ss.foldl snapFoldStep (snapFoldInit backups) with totalSize := total } :
            SnapFold).count.keys m' "").2
      exact ⟨h3.trans hsl.1, h4.trans hsl.2⟩

/-- Effect of a zero-write fold over the object maps: listed names read
zero, other names are untouched, the key set grows by the listed names. -/
theorem objZero_go (names : List String) (st : ObjFold) (n : String) :
    ((names.foldl objFoldZero st).count.get n = if n ∈ names then 0 else st.count.get n) ∧
    ((names.foldl objFoldZero st).totalSize.get n =
      if n ∈ names then 0 else st.totalSize.get n) ∧
    ((names.foldl objFoldZero st).latestSize.get n =
      if n ∈ names then 0 else st.latestSize.get n) ∧
    ((names.foldl objFoldZero st).latestTime.get n =
      if n ∈ names then 0 else st.latestTime.get n) ∧
    (n ∈ (names.foldl objFoldZero st).count.keys ↔ n ∈ st.count.keys ∨ n ∈ names) := by
  induction names generalizing st with
  | nil => simp
  | cons b bs ih =>
      obtain ⟨ih1, ih2, ih3, ih4, ih5⟩ := ih (objFoldZero st b)
      have e1 : (objFoldZero st b).count.get n = if n = b then 0 else st.count.get n := by
        by_cases hb : n = b
        · subst hb; simpa [objFoldZero] using GoMap.get_set_self st.count n 0
        · simpa [objFoldZero, hb] using GoMap.get_set_ne st.count b n 0 hb
      have e2 : (objFoldZero st b).totalSize.get n = if n = b then 0 else st.totalSize.get n := by
        by_cases hb : n = b
        · subst hb; simpa [objFoldZero] using GoMap.get_set_self st.totalSize n 0
        · simpa [objFoldZero, hb] using GoMap.get_set_ne st.totalSize b n 0 hb
      have e3 : (objFoldZero st b).latestSize.get n = if n = b then 0 else st.latestSize.get n := by
        by_cases hb : n = b
        · subst hb; simpa [objFoldZero] using GoMap.get_set_self st.latestSize n 0
        · simpa [objFoldZero, hb] using GoMap.get_set_ne st.latestSize b n 0 hb
      have e4 : (objFoldZero st b).latestTime.get n = if n = b then 0 else st.latestTime.get n := by
        by_cases hb : n = b
        · subst hb; simpa [objFoldZero] using GoMap.get_set_self st.latestTime n 0
        · simpa [objFoldZero, hb] using GoMap.get_set_ne st.latestTime b n 0 hb
      have e5 : n ∈ (objFoldZero st b).count.keys ↔ n ∈ st.count.keys ∨ n = b := by
        simpa [objFoldZero] using GoMap.mem_keys_set st.count b n 0
      rw [List.foldl_cons]
      refine ⟨?_, ?_, ?_, ?_, ?_⟩
      · rw [ih1, e1]; by_cases hmem : n ∈ bs <;> by_cases hb : n = b <;> simp [hmem, hb]
      · rw [ih2, e2]; by_cases hmem : n ∈ bs <;> by_cases hb : n = b <;> simp [hmem, hb]
      · rw [ih3, e3]; by_cases hmem : n ∈ bs <;> by_cases hb : n = b <;> simp [hmem, hb]
      · rw [ih4, e4]; by_cases hmem : n ∈ bs <;> by_cases hb : n = b <;> simp [hmem, hb]
      · rw [ih5, e5]
        simp only [List.mem_cons]
        tauto

/-- Effect of the object accumulation fold: the count grows by the number of
matching versions, the total size by the sum of their sizes, the latest
cells hold the figures of the last latest-flagged matching version, and the
key set grows by the derived names. -/
theorem objStep_go (os : List S3Object) (st : ObjFold) (n : String) :
    ((os.foldl objFoldStep st).count.get n = st.count.get n + countObj os n) ∧
    ((os.foldl objFoldStep st).totalSize.get n = st.totalSize.get n + sumSizes os n) ∧
    ((os.foldl objFoldStep st).latestSize.get n =
      match lastLatest os n with
      | some o => o.size
      | none => st.latestSize.get n) ∧
    ((os.foldl objFoldStep st).latestTime.get n =
      match lastLatest os n with
      | some o => o.createdAt
      | none => st.latestTime.get n) ∧
    (n ∈ (os.foldl objFoldStep st).count.keys ↔
      n ∈ st.count.keys ∨ n ∈ os.map S3Object.backupName) := by
  induction os generalizing st with
  | nil => simp [countObj, sumSizes, lastLatest]
  | cons o rest ih =>
      obtain ⟨ih1, ih2, ih3, ih4, ih5⟩ := ih (objFoldStep st o)
      have hcons : lastLatest (o :: rest) n =
          match lastLatest rest n with
          | some t => some t
          | none => if o.backupName = n ∧ o.isLatest then some o else none := rfl
      have c1 : (objFoldStep st o).count.get n =
          if o.backupName = n then st.count.get n + 1 else st.count.get n := by
        by_cases hb : o.backupName = n
        · subst hb; simpa [objFoldStep] using
            GoMap.get_set_self st.count o.backupName (st.count.get o.backupName + 1)
        · simpa [objFoldStep, hb] using
            GoMap.get_set_ne st.count o.backupName n _ (fun h => hb h.symm)
      have c2 : (objFoldStep st o).totalSize.get n =
          if o.backupName = n then st.totalSize.get n + o.size else st.totalSize.get n := by
        by_cases hb : o.backupName = n
        · subst hb; simpa [objFoldStep] using
            GoMap.get_set_self st.totalSize o.backupName (st.totalSize.get o.backupName + o.size)
        · simpa [objFoldStep, hb] using
            GoMap.get_set_ne st.totalSize o.backupName n _ (fun h => hb h.symm)
      have c3 : (objFoldStep st o).latestSize.get n =
          if o.backupName = n ∧ o.isLatest then o.size else st.latestSize.get n := by
        rcases hl : o.isLatest with _ | _
        · simp [objFoldStep, hl]
        · by_cases hb : o.backupName = n
          · subst hb
            simpa [objFoldStep, hl] using GoMap.get_set_self st.latestSize o.backupName o.size
          · simpa [objFoldStep, hl, hb] using
              GoMap.get_set_ne st.latestSize o.backupName n _ (fun h => hb h.symm)
      have c4 : (objFoldStep st o).latestTime.get n =
          if o.backupName = n ∧ o.isLatest then o.createdAt else st.latestTime.get n := by
        rcases hl : o.isLatest with _ | _
        · simp [objFoldStep, hl]
        · by_cases hb : o.backupName = n
          · subst hb
            simpa [objFoldStep, hl] using GoMap.get_set_self st.latestTime o.backupName o.createdAt
          · simpa [objFoldStep, hl, hb] using
              GoMap.get_set_ne st.latestTime o.backupName n _ (fun h => hb h.symm)
      refine ⟨?_, ?_, ?_, ?_, ?_⟩
      · rw [List.foldl_cons, ih1, c1]
        by_cases hb : o.backupName = n <;> simp [countObj, hb] <;> omega
      · rw [List.foldl_cons, ih2, c2]
        by_cases hb : o.backupName = n <;> simp [sumSizes, hb] <;> omega
      · rw [List.foldl_cons, ih3, hcons]
        rcases h : lastLatest rest n with _ | t
        · rw [c3]
          by_cases hb : o.backupName = n ∧ o.isLatest = true <;> simp [hb]
        · rfl
      · rw [List.foldl_cons, ih4, hcons]
        rcases h : lastLatest rest n with _ | t
        · rw [c4]
          by_cases hb : o.backupName = n ∧ o.isLatest = true <;> simp [hb]
        · rfl
      · rw [List.foldl_cons, ih5]
        have hk : n ∈ (objFoldStep st o).count.keys ↔
            n ∈ st.count.keys ∨ n = o.backupName := by
          simpa [objFoldStep] using GoMap.mem_keys_set st.count o.backupName n _
        rw [hk]
        simp only [List.map_cons, List.mem_cons]
        exact or_assoc

/-- Combined effect of the two zero-initialization loops of updateS3Metrics
(configured names first, then every derived name): every name reads zero and
the key set is exactly the configured plus derived names. -/
theorem objZeroInit_spec (backups : List String) (os : List S3Object) (n : String) :
    ((os.foldl (fun st o => objFoldZero st o.backupName)
        (backups.foldl objFoldZero ⟨[], [], [], []⟩)).count.get n = 0) ∧
    ((os.foldl (fun st o => objFoldZero st o.backupName)
        (backups.foldl objFoldZero ⟨[], [], [], []⟩)).totalSize.get n = 0) ∧
    ((os.foldl (fun st o => objFoldZero st o.backupName)
        (backups.foldl objFoldZero ⟨[], [], [], []⟩)).latestSize.get n = 0) ∧
    ((os.foldl (fun st o => objFoldZero st o.backupName)
        (backups.foldl objFoldZero ⟨[], [], [], []⟩)).latestTime.get n = 0) ∧
    (n ∈ (os.foldl (fun st o => objFoldZero st o.backupName)
        (backups.foldl objFoldZero ⟨[], [], [], []⟩)).count.keys ↔
      n ∈ backups ∨ n ∈ os.map S3Object.backupName) := by
  have hmap : os.foldl (fun st o => objFoldZero st o.backupName)
      (backups.foldl objFoldZero ⟨[], [], [], []⟩) =
      (os.map S3Object.backupName).foldl objFoldZero
        (backups.foldl objFoldZero ⟨[], [], [], []⟩) := by
    rw [List.foldl_map]
  obtain ⟨i1, i2, i3, i4, i5⟩ := objZero_go backups ⟨[], [], [], []⟩ n
  obtain ⟨z1, z2, z3, z4, z5⟩ :=
    objZero_go (os.map S3Object.backupName) (backups.foldl objFoldZero ⟨[], [], [], []⟩) n
  have base1 : GoMap.get [] n = 0 := by simp [GoMap.get, List.find?]
  rw [hmap]
  refine ⟨?_, ?_, ?_, ?_, ?_⟩
  · rw [z1, i1]
    by_cases hm : n ∈ os.map S3Object.backupName <;> by_cases hb : n ∈ backups <;>
      simp [hm, hb, base1]
  · rw [z2, i2]
    by_cases hm : n ∈ os.map S3Object.backupName <;> by_cases hb : n ∈ backups <;>
      simp [hm, hb, base1]
  · rw [z3, i3]
    by_cases hm : n ∈ os.map S3Object.backupName <;> by_cases hb : n ∈ backups <;>
      simp [hm, hb, base1]
  · rw [z4, i4]
    by_cases hm : n ∈ os.map S3Object.backupName <;> by_cases hb : n ∈ backups <;>
      simp [hm, hb, base1]
  · rw [z5, i5]
    simp [GoMap.keys]

/-- Effect of the object publication fold: every listed name's four export
gauges are set to the fold values, unlisted names keep their series, and all
other metric fields are untouched. -/
theorem setS3StatsFold_spec (st : ObjFold) :
    ∀ (names : List String) (m : Metrics) (n : String),
      (n ∈ names →
        (setS3StatsFold st names m).s3SnapshotCount n = some (st.count.get n) ∧
        (setS3StatsFold st names m).s3SnapshotTotalSize n = some (st.totalSize.get n) ∧
        (setS3StatsFold st names m).s3SnapshotLatestSize n = some (st.latestSize.get n) ∧
        (setS3StatsFold st names m).s3SnapshotLatestTimestamp n = some (st.latestTime.get n)) ∧
      (n ∉ names →
        (setS3StatsFold st names m).s3SnapshotCount n = m.s3SnapshotCount n ∧
        (setS3StatsFold st names m).s3SnapshotTotalSize n = m.s3SnapshotTotalSize n ∧
        (setS3StatsFold st names m).s3SnapshotLatestSize n = m.s3SnapshotLatestSize n ∧
        (setS3StatsFold st names m).s3SnapshotLatestTimestamp n = m.s3SnapshotLatestTimestamp n) ∧
      (setS3StatsFold st names m).schedulerErrors = m.schedulerErrors ∧
      (setS3StatsFold st names m).resticSnapshotErrors = m.resticSnapshotErrors ∧
      (setS3StatsFold st names m).resticSnapshotLatestDuration =
        m.resticSnapshotLatestDuration ∧
      (setS3StatsFold st names m).resticSnapshotLatestSize = m.resticSnapshotLatestSize ∧
      (setS3StatsFold st names m).resticSnapshotLatestTimestamp =
        m.resticSnapshotLatestTimestamp ∧
      (setS3StatsFold st names m).resticSnapshotCount = m.resticSnapshotCount ∧
      (setS3StatsFold st names m).resticSnapshotTotalSize = m.resticSnapshotTotalSize ∧
      (setS3StatsFold st names m).s3SnapshotErrors = m.s3SnapshotErrors ∧
      (setS3StatsFold st names m).s3SnapshotLatestDuration = m.s3SnapshotLatestDuration ∧
      (setS3StatsFold st names m).s3SnapshotLatestUploadDuration =
        m.s3SnapshotLatestUploadDuration := by
  intro names
  induction names with
  | nil =>
      intro m n
      exact ⟨fun h => absurd h (List.not_mem_nil n), fun _ => ⟨rfl, rfl, rfl, rfl⟩,
        rfl, rfl, rfl, rfl, rfl, rfl, rfl, rfl, rfl, rfl⟩
  | cons k rest ih =>
      intro m n
      set m1 := m.setS3StatsByBackupName k (st.count.get k) (st.totalSize.get k)
        (st.latestSize.get k) (st.latestTime.get k) with hm1
      have hfold : setS3StatsFold st (k :: rest) m = setS3StatsFold st rest m1 := rfl
      obtain ⟨ihin, ihout, ihf⟩ := ih m1 n
      have p1 : m1.s3SnapshotCount n =
          if n = k then some (st.count.get k) else m.s3SnapshotCount n := by
        rw [hm1]; rfl
      have p2 : m1.s3SnapshotTotalSize n =
          if n = k then some (st.totalSize.get k) else m.s3SnapshotTotalSize n := by
        rw [hm1]; rfl
      have p3 : m1.s3SnapshotLatestSize n =
          if n = k then some (st.latestSize.get k) else m.s3SnapshotLatestSize n := by
        rw [hm1]; rfl
      have p4 : m1.s3SnapshotLatestTimestamp n =
          if n = k then some (st.latestTime.get k) else m.s3SnapshotLatestTimestamp n := by
        rw [hm1]; rfl
      have hframe : (setS3StatsFold st (k :: rest) m).schedulerErrors = m.schedulerErrors ∧
          (setS3StatsFold st (k :: rest) m).resticSnapshotErrors = m.resticSnapshotErrors ∧
          (setS3StatsFold st (k :: rest) m).resticSnapshotLatestDuration =
            m.resticSnapshotLatestDuration ∧
          (setS3StatsFold st (k :: rest) m).resticSnapshotLatestSize =
            m.resticSnapshotLatestSize ∧
          (setS3StatsFold st (k :: rest) m).resticSnapshotLatestTimestamp =
            m.resticSnapshotLatestTimestamp ∧
          (setS3StatsFold st (k :: rest) m).resticSnapshotCount = m.resticSnapshotCount ∧
          (setS3StatsFold st (k :: rest) m).resticSnapshotTotalSize =
            m.resticSnapshotTotalSize ∧
          (setS3StatsFold st (k :: rest) m).s3SnapshotErrors = m.s3SnapshotErrors ∧
          (setS3StatsFold st (k :: rest) m).s3SnapshotLatestDuration =
            m.s3SnapshotLatestDuration ∧
          (setS3StatsFold st (k :: rest) m).s3SnapshotLatestUploadDuration =
            m.s3SnapshotLatestUploadDuration := by
        rw [hfold]
        obtain ⟨f1, f2, f3, f4, f5, f6, f7, f8, f9, f10⟩ := ihf
        rw [f1, f2, f3, f4, f5, f6, f7, f8, f9, f10, hm1]
        exact ⟨rfl, rfl, rfl, rfl, rfl, rfl, rfl, rfl, rfl, rfl⟩
      by_cases hmem : n ∈ rest
      · exact ⟨fun _ => ihin hmem, fun hno => absurd (List.mem_cons_of_mem k hmem) hno, hframe⟩
      · obtain ⟨o1, o2, o3, o4⟩ := ihout hmem
        by_cases hk : n = k
        · refine ⟨fun _ => ?_, fun hno => absurd (hk ▸ List.mem_cons_self k rest) hno, hframe⟩
          rw [hfold, o1, o2, o3, o4, p1, p2, p3, p4]
          subst hk
          simp
        · refine ⟨fun hin => ?_, fun _ => ?_, hframe⟩
          · rcases List.mem_cons.mp hin with hin | hin
            · exact absurd hin hk
            · exact absurd hin hmem
          · rw [hfold, o1, o2, o3, o4, p1, p2, p3, p4]
            simp [hk]

/-- Full characterization of a successful object-store reconciliation pass:
the pass reports success, every configured or derived backup name gets its
four export gauges set to the fold figures over the derived objects, and
every other metric field of the registry is untouched. -/
theorem updateS3Metrics_ok (backups : List String) (ro : List RawObject)
    (env : S3Env) (m : Metrics) (hs : env.objects = .ok ro) :
    (updateS3Metrics backups env m).2 = true ∧
    (∀ n, (n ∈ backups ∨ n ∈ (derivedObjects ro).map S3Object.backupName) →
      (updateS3Metrics backups env m).1.s3SnapshotCount n =
        some (countObj (derivedObjects ro) n) ∧
      (updateS3Metrics backups env m).1.s3SnapshotTotalSize n =
        some (sumSizes (derivedObjects ro) n) ∧
      (updateS3Metrics backups env m).1.s3SnapshotLatestSize n =
        some (objSizeOfLatest (derivedObjects ro) n) ∧
      (updateS3Metrics backups env m).1.s3SnapshotLatestTimestamp n =
        some (objTimeOfLatest (derivedObjects ro) n)) ∧
    (updateS3Metrics backups env m).1.schedulerErrors = m.schedulerErrors ∧
    (updateS3Metrics backups env m).1.resticSnapshotErrors = m.resticSnapshotErrors ∧
    (updateS3Metrics backups env m).1.resticSnapshotLatestDuration =
      m.resticSnapshotLatestDuration ∧
    (updateS3Metrics backups env m).1.resticSnapshotLatestSize = m.resticSnapshotLatestSize ∧
    (updateS3Metrics backups env m).1.resticSnapshotLatestTimestamp =
      m.resticSnapshotLatestTimestamp ∧
    (updateS3Metrics backups env m).1.resticSnapshotCount = m.resticSnapshotCount ∧
    (updateS3Metrics backups env m).1.resticSnapshotTotalSize = m.resticSnapshotTotalSize ∧
    (updateS3Metrics backups env m).1.s3SnapshotErrors = m.s3SnapshotErrors ∧
    (updateS3Metrics backups env m).1.s3SnapshotLatestDuration = m.s3SnapshotLatestDuration ∧
    (updateS3Metrics backups env m).1.s3SnapshotLatestUploadDuration =
      m.s3SnapshotLatestUploadDuration := by
  have hz := fun n => objZeroInit_spec backups (derivedObjects ro) n
  have hupd : updateS3Metrics backups env m =
      (setS3StatsAll
        ((derivedObjects ro).foldl objFoldStep
          ((derivedObjects ro).foldl (fun st o => objFoldZero st o.backupName)
            (backups.foldl objFoldZero ⟨[], [], [], []⟩))) m, true) := by
    have hlist : listObjects env.objects = .ok (derivedObjects ro) := by
      rw [hs]; exact listObjects_ok ro
    simp only [updateS3Metrics, hlist]
  rw [hupd]
  have hfold := fun n => objStep_go (derivedObjects ro)
    ((derivedObjects ro).foldl (fun st o => objFoldZero st o.backupName)
      (backups.foldl objFoldZero ⟨[], [], [], []⟩)) n
  have hkeys : ∀ n, n ∈ ((derivedObjects ro).foldl objFoldStep
      ((derivedObjects ro).foldl (fun st o => objFoldZero st o.backupName)
        (backups.foldl objFoldZero ⟨[], [], [], []⟩))).count.keys ↔
      (n ∈ backups ∨ n ∈ (derivedObjects ro).map S3Object.backupName) := by
    intro n
    rw [(hfold n).2.2.2.2, (hz n).2.2.2.2]
    tauto
  have hall : ∀ mm, setS3StatsAll ((derivedObjects ro).foldl objFoldStep
      ((derivedObjects ro).foldl (fun st o => objFoldZero st o.backupName)
        (backups.foldl objFoldZero ⟨[], [], [], []⟩))) mm =
      setS3StatsFold ((derivedObjects ro).foldl objFoldStep
        ((derivedObjects ro).foldl (fun st o => objFoldZero st o.backupName)
          (backups.foldl objFoldZero ⟨[], [], [], []⟩)))
        ((derivedObjects ro).foldl objFoldStep
          ((derivedObjects ro).foldl (fun st o => objFoldZero st o.backupName)
            (backups.foldl objFoldZero ⟨[], [], [], []⟩))).count.keys mm :=
    fun _ => rfl
  rw [hall]
  have hspec := fun n => setS3StatsFold_spec
    ((derivedObjects ro).foldl objFoldStep
      ((derivedObjects ro).foldl (fun st o => objFoldZero st o.backupName)
        (backups.foldl objFoldZero ⟨[], [], [], []⟩)))
    ((derivedObjects ro).foldl objFoldStep
      ((derivedObjects ro).foldl (fun st o => objFoldZero st o.backupName)
        (backups.foldl objFoldZero ⟨[], [], [], []⟩))).count.keys m n
  refine ⟨rfl, ?_, ?_⟩
  · intro n hn
    obtain ⟨hin, _, _⟩ := hspec n
    obtain ⟨q1, q2, q3, q4⟩ := hin ((hkeys n).mpr hn)
    have hcnt : ((derivedObjects ro).foldl objFoldStep
        ((derivedObjects ro).foldl (fun st o => objFoldZero st o.backupName)
          (backups.foldl objFoldZero ⟨[], [], [], []⟩))).count.get n =
        countObj (derivedObjects ro) n := by
      rw [(hfold n).1, (hz n).1]; omega
    have htot : ((derivedObjects ro).foldl objFoldStep
        ((derivedObjects ro).foldl (fun st o => objFoldZero st o.backupName)
          (backups.foldl objFoldZero ⟨[], [], [], []⟩))).totalSize.get n =
        sumSizes (derivedObjects ro) n := by
      rw [(hfold n).2.1, (hz n).2.1]; omega
    have hls : ((derivedObjects ro).foldl objFoldStep
        ((derivedObjects ro).foldl (fun st o => objFoldZero st o.backupName)
          (backups.foldl objFoldZero ⟨[], [], [], []⟩))).latestSize.get n =
        objSizeOfLatest (derivedObjects ro) n := by
      rw [(hfold n).2.2.1]
      unfold objSizeOfLatest
      rcases lastLatest (derivedObjects ro) n with _ | t
      · exact (hz n).2.2.1
      · rfl
    have hlt : ((derivedObjects ro).foldl objFoldStep
        ((derivedObjects ro).foldl (fun st o => objFoldZero st o.backupName)
          (backups.foldl objFoldZero ⟨[], [], [], []⟩))).latestTime.get n =
        objTimeOfLatest (derivedObjects ro) n := by
      rw [(hfold n).2.2.2.1]
      unfold objTimeOfLatest
      rcases lastLatest (derivedObjects ro) n with _ | t
      · exact (hz n).2.2.2.1
      · rfl
    rw [q1, q2, q3, q4, hcnt, htot, hls, hlt]
    exact ⟨rfl, rfl, rfl, rfl⟩
  · exact (hspec "").2.2

/-- A name carried by no snapshot matches nothing in the fold. -/
theorem snap_absent_spec (ss : List Snapshot) (n : String)
    (h : ∀ s ∈ ss, s.name ≠ n) :
    countMatch ss n = 0 ∧ lastWith ss n = none ∧ n ∉ ss.map Snapshot.name := by
  induction ss with
  | nil => exact ⟨rfl, rfl, by simp⟩
  | cons s rest ih =>
      obtain ⟨h1, h2, h3⟩ := ih (fun t ht => h t (List.mem_cons_of_mem s ht))
      have hs : s.name ≠ n := h s (List.mem_cons_self s rest)
      refine ⟨?_, ?_, ?_⟩
      · simp [countMatch, hs, h1]
      · simp [lastWith, h2, hs]
      · simp only [List.map_cons, List.mem_cons]
        rintro (hx | hx)
        · exact hs hx.symm
        · exact h3 hx

/-- A name carried by no object version matches nothing in the object fold. -/
theorem obj_absent_spec (os : List S3Object) (n : String)
    (h : ∀ o ∈ os, o.backupName ≠ n) :
    countObj os n = 0 ∧ sumSizes os n = 0 ∧ lastLatest os n = none ∧
      n ∉ os.map S3Object.backupName := by
  induction os with
  | nil => exact ⟨rfl, rfl, rfl, by simp⟩
  | cons o rest ih =>
      obtain ⟨h1, h2, h3, h4⟩ := ih (fun t ht => h t (List.mem_cons_of_mem o ht))
      have hs : o.backupName ≠ n := h o (List.mem_cons_self o rest)
      refine ⟨?_, ?_, ?_, ?_⟩
      · simp [countObj, hs, h1]
      · simp [sumSizes, hs, h2]
      · simp [lastLatest, h3, hs]
      · simp only [List.map_cons, List.mem_cons]
        rintro (hx | hx)
        · exact hs hx.symm
        · exact h4 hx

/-- C9: the repository reconciliation's latest-size and latest-time gauges
hold the figures of the last snapshot carrying the name in the order the
listing returns the snapshots (each matching snapshot overwrites the cell),
not necessarily those of the chronologically most recent snapshot. -/
theorem claimC9_latest_is_last_in_listing_order (backups : List String)
    (ss : List Snapshot) (v : String → Int) (env : ResticEnv) (m : Metrics)
    (hs : env.snapshots = .ok ss) (hv : ∀ k, env.stats k = .ok (v k))
    (n : String) (hn : n ∈ backups ∨ n ∈ ss.map Snapshot.name) :
    (updateResticMetrics backups env m).1.resticSnapshotLatestSize n =
      some (sizeOfLast ss n) ∧
    (updateResticMetrics backups env m).1.resticSnapshotLatestTimestamp n =
      some (timeOfLast ss n) := by
  obtain ⟨-, hgauges, -⟩ := updateResticMetrics_ok backups ss v env m hs hv
  obtain ⟨-, -, h3, h4⟩ := hgauges n hn
  exact ⟨h3, h4⟩

/-- Witness for C9 at two same-name snapshots listed newest first: the
gauges report the snapshot listed last, which is the chronologically older
one (size 7 at time 90, not size 5 at time 100). -/
theorem claimC9_witness :
    (updateResticMetrics ["db"]
      ⟨.ok [⟨"i1", 100, ["name=db"], 5⟩, ⟨"i2", 90, ["name=db"], 7⟩], fun _ => .ok 12⟩
      newMetrics).1.resticSnapshotLatestSize "db" = some 7 ∧
    (updateResticMetrics ["db"]
      ⟨.ok [⟨"i1", 100, ["name=db"], 5⟩, ⟨"i2", 90, ["name=db"], 7⟩], fun _ => .ok 12⟩
      newMetrics).1.resticSnapshotLatestTimestamp "db" = some 90 := by
  have h := claimC9_latest_is_last_in_listing_order ["db"]
    [⟨"i1", 100, ["name=db"], 5⟩, ⟨"i2", 90, ["name=db"], 7⟩] (fun _ => 12)
    ⟨.ok [⟨"i1", 100, ["name=db"], 5⟩, ⟨"i2", 90, ["name=db"], 7⟩], fun _ => .ok 12⟩
    newMetrics rfl (fun _ => rfl) "db" (Or.inl (by decide))
  exact ⟨h.1.trans (by decide), h.2.trans (by decide)⟩

/-- C5: after a successful metrics-refresh pass over both the repository and
the object store, every configured backup name has all eight defined gauge
series set (count, total size, latest size, latest time, for repository and
export target), and each series reads zero for a name carried by no
snapshot, respectively no object version. -/
theorem claimC5_refresh_covers_every_name (backups : List String)
    (ss : List Snapshot) (ro : List RawObject) (v : String → Int)
    (renv : ResticEnv) (senv : S3Env) (m : Metrics)
    (hs : renv.snapshots = .ok ss) (hv : ∀ k, renv.stats k = .ok (v k))
    (ho : senv.objects = .ok ro) (n : String) (hn : n ∈ backups) :
    (updateAllMetrics backups renv senv m).2 = true ∧
    ((updateAllMetrics backups renv senv m).1.resticSnapshotCount n).isSome ∧
    ((updateAllMetrics backups renv senv m).1.resticSnapshotTotalSize n).isSome ∧
    ((updateAllMetrics backups renv senv m).1.resticSnapshotLatestSize n).isSome ∧
    ((updateAllMetrics backups renv senv m).1.resticSnapshotLatestTimestamp n).isSome ∧
    ((updateAllMetrics backups renv senv m).1.s3SnapshotCount n).isSome ∧
    ((updateAllMetrics backups renv senv m).1.s3SnapshotTotalSize n).isSome ∧
    ((updateAllMetrics backups renv senv m).1.s3SnapshotLatestSize n).isSome ∧
    ((updateAllMetrics backups renv senv m).1.s3SnapshotLatestTimestamp n).isSome ∧
    ((∀ s ∈ ss, s.name ≠ n) →
      (updateAllMetrics backups renv senv m).1.resticSnapshotCount n = some 0 ∧
      (updateAllMetrics backups renv senv m).1.resticSnapshotTotalSize n = some 0 ∧
      (updateAllMetrics backups renv senv m).1.resticSnapshotLatestSize n = some 0 ∧
      (updateAllMetrics backups renv senv m).1.resticSnapshotLatestTimestamp n = some 0) ∧
    ((∀ o ∈ derivedObjects ro, o.backupName ≠ n) →
      (updateAllMetrics backups renv senv m).1.s3SnapshotCount n = some 0 ∧
      (updateAllMetrics backups renv senv m).1.s3SnapshotTotalSize n = some 0 ∧
      (updateAllMetrics backups renv senv m).1.s3SnapshotLatestSize n = some 0 ∧
      (updateAllMetrics backups renv senv m).1.s3SnapshotLatestTimestamp n = some 0) := by
  obtain ⟨hok1, hg1, hfr1⟩ := updateResticMetrics_ok backups ss v renv m hs hv
  have hsplit : updateResticMetrics backups renv m =
      ((updateResticMetrics backups renv m).1, true) := by
    rw [← hok1]
  have hall : updateAllMetrics backups renv senv m =
      updateS3Metrics backups senv (updateResticMetrics backups renv m).1 := by
    rw [updateAllMetrics, hsplit]
    rfl
  rw [hall]
  obtain ⟨hok2, hg2, hfr2⟩ :=
    updateS3Metrics_ok backups ro senv (updateResticMetrics backups renv m).1 ho
  obtain ⟨r1, r2, r3, r4⟩ := hg1 n (Or.inl hn)
  obtain ⟨s1, s2, s3, s4⟩ := hg2 n (Or.inl hn)
  obtain ⟨-, -, -, f4, f5, f6, f7, -⟩ := hfr2
  have q1 : (updateS3Metrics backups senv
      (updateResticMetrics backups renv m).1).1.resticSnapshotCount n =
      some (countMatch ss n) := by rw [f6]; exact r1
  have q2 : (updateS3Metrics backups senv
      (updateResticMetrics backups renv m).1).1.resticSnapshotTotalSize n =
      some (if n ∈ ss.map Snapshot.name then v n else 0) := by rw [f7]; exact r2
  have q3 : (updateS3Metrics backups senv
      (updateResticMetrics backups renv m).1).1.resticSnapshotLatestSize n =
      some (sizeOfLast ss n) := by rw [f4]; exact r3
  have q4 : (updateS3Metrics backups senv
      (updateResticMetrics backups renv m).1).1.resticSnapshotLatestTimestamp n =
      some (timeOfLast ss n) := by rw [f5]; exact r4
  refine ⟨hok2, by simp [q1], by simp [q2], by simp [q3], by simp [q4],
    by simp [s1], by simp [s2], by simp [s3], by simp [s4], ?_, ?_⟩
  · intro habs
    obtain ⟨z1, z2, z3⟩ := snap_absent_spec ss n habs
    have hz3 : sizeOfLast ss n = 0 := by unfold sizeOfLast; rw [z2]
    have hz4 : timeOfLast ss n = 0 := by unfold timeOfLast; rw [z2]
    refine ⟨by rw [q1, z1], ?_, by rw [q3, hz3], by rw [q4, hz4]⟩
    rw [q2]
    simp [z3]
  · intro habs
    obtain ⟨z1, z2, z3, z4⟩ := obj_absent_spec (derivedObjects ro) n habs
    have hz3 : objSizeOfLatest (derivedObjects ro) n = 0 := by
      unfold objSizeOfLatest; rw [z3]
    have hz4 : objTimeOfLatest (derivedObjects ro) n = 0 := by
      unfold objTimeOfLatest; rw [z3]
    exact ⟨by rw [s1, z1], by rw [s2, z2], by rw [s3, hz3], by rw [s4, hz4]⟩

/-- Witness for C5 at a configured name with no snapshots and no objects:
after the refresh all eight series exist and read zero. -/
theorem claimC5_witness :
    (updateAllMetrics ["db"] ⟨.ok [], fun _ => .ok 0⟩ ⟨.ok []⟩ newMetrics).2 = true ∧
    (updateAllMetrics ["db"] ⟨.ok [], fun _ => .ok 0⟩ ⟨.ok []⟩
      newMetrics).1.resticSnapshotCount "db" = some 0 ∧
    (updateAllMetrics ["db"] ⟨.ok [], fun _ => .ok 0⟩ ⟨.ok []⟩
      newMetrics).1.s3SnapshotTotalSize "db" = some 0 := by
  have h := claimC5_refresh_covers_every_name ["db"] [] [] (fun _ => 0)
    ⟨.ok [], fun _ => .ok 0⟩ ⟨.ok []⟩ newMetrics rfl (fun _ => rfl) rfl "db"
    (List.mem_cons_self "db" [])
  obtain ⟨h1, -, -, -, -, -, -, -, -, hz, hzo⟩ := h
  obtain ⟨a1, -, -, -⟩ := hz (by intro s hs; exact absurd hs (List.not_mem_nil s))
  obtain ⟨-, b2, -, -⟩ := hzo (by intro o hos; exact absurd hos (List.not_mem_nil o))
  exact ⟨h1, a1, b2⟩

/-- C10: updateS3Metrics creates and sets export gauge series for every
backup name derived from an object key by trimming the fixed archive suffix,
whether or not that name is configured: the gauges at the derived name hold
the count, total size and latest-version figures folded over the derived
objects exactly as for configured names. -/
theorem claimC10_derived_names_folded (backups : List String) (ro : List RawObject)
    (env : S3Env) (m : Metrics) (ho : env.objects = .ok ro)
    (o : RawObject) (hobj : o ∈ ro) :
    (updateS3Metrics backups env m).2 = true ∧
    (updateS3Metrics backups env m).1.s3SnapshotCount (goTrimSuf o.key ".tar.gz.age") =
      some (countObj (derivedObjects ro) (goTrimSuf o.key ".tar.gz.age")) ∧
    (updateS3Metrics backups env m).1.s3SnapshotTotalSize (goTrimSuf o.key ".tar.gz.age") =
      some (sumSizes (derivedObjects ro) (goTrimSuf o.key ".tar.gz.age")) ∧
    (updateS3Metrics backups env m).1.s3SnapshotLatestSize (goTrimSuf o.key ".tar.gz.age") =
      some (objSizeOfLatest (derivedObjects ro) (goTrimSuf o.key ".tar.gz.age")) ∧
    (updateS3Metrics backups env m).1.s3SnapshotLatestTimestamp
        (goTrimSuf o.key ".tar.gz.age") =
      some (objTimeOfLatest (derivedObjects ro) (goTrimSuf o.key ".tar.gz.age")) := by
  obtain ⟨hok, hg, -⟩ := updateS3Metrics_ok backups ro env m ho
  have hmem : goTrimSuf o.key ".tar.gz.age" ∈ (derivedObjects ro).map S3Object.backupName := by
    unfold derivedObjects
    rw [List.map_map]
    exact List.mem_map_of_mem _ hobj
  obtain ⟨g1, g2, g3, g4⟩ := hg (goTrimSuf o.key ".tar.gz.age") (Or.inr hmem)
  exact ⟨hok, g1, g2, g3, g4⟩

/-- Witness for C10 at an object whose derived name is not configured: the
stray object's gauges are created and folded (count 1, sizes from the single
latest-flagged version). -/
theorem claimC10_witness :
    (updateS3Metrics ["db"] ⟨.ok [⟨"stray.tar.gz.age", 7, 5, true⟩]⟩
      newMetrics).1.s3SnapshotCount "stray" = some 1 ∧
    (updateS3Metrics ["db"] ⟨.ok [⟨"stray.tar.gz.age", 7, 5, true⟩]⟩
      newMetrics).1.s3SnapshotTotalSize "stray" = some 7 ∧
    (updateS3Metrics ["db"] ⟨.ok [⟨"stray.tar.gz.age", 7, 5, true⟩]⟩
      newMetrics).1.s3SnapshotLatestSize "stray" = some 7 ∧
    (updateS3Metrics ["db"] ⟨.ok [⟨"stray.tar.gz.age", 7, 5, true⟩]⟩
      newMetrics).1.s3SnapshotLatestTimestamp "stray" = some 5 := by
  have h := claimC10_derived_names_folded ["db"] [⟨"stray.tar.gz.age", 7, 5, true⟩]
    ⟨.ok [⟨"stray.tar.gz.age", 7, 5, true⟩]⟩ newMetrics rfl
    ⟨"stray.tar.gz.age", 7, 5, true⟩ (List.mem_cons_self _ [])
  have he : goTrimSuf "stray.tar.gz.age" ".tar.gz.age" = "stray" := by decide
  obtain ⟨-, g1, g2, g3, g4⟩ := h
  rw [he] at g1 g2 g3 g4
  exact ⟨g1.trans (by decide), g2.trans (by decide), g3.trans (by decide),
    g4.trans (by decide)⟩

/-- The loop body acts as: full success sets the unit's duration gauge,
any stage failure increments the unit's error counter. -/
theorem backupStep_eq (m : Metrics) (u : BackupOutcome) :
    backupStep m u =
      if u.ok = true then m.setResticDurationByBackupName u.name u.durationSec
      else m.addResticErrorByBackupName u.name := by
  by_cases h1 : u.pre = some false
  · simp [backupStep, BackupOutcome.ok, h1]
  · by_cases h2 : u.backupOk = false
    · simp [backupStep, BackupOutcome.ok, h1, h2]
    · by_cases h3 : u.post = some false
      · simp [backupStep, BackupOutcome.ok, h1, h2, h3]
      · have hb : u.backupOk = true := by revert h2; cases u.backupOk <;> simp
        simp [backupStep, BackupOutcome.ok, h1, h2, h3, hb]

/-- A unit's loop iteration leaves the error counter and duration gauge of
every other name untouched, and never touches any other metric field. -/
theorem backupStep_frame (m : Metrics) (u : BackupOutcome) (n : String)
    (hn : n ≠ u.name) :
    (backupStep m u).resticSnapshotErrors n = m.resticSnapshotErrors n ∧
    (backupStep m u).resticSnapshotLatestDuration n = m.resticSnapshotLatestDuration n := by
  rw [backupStep_eq]
  by_cases h : u.ok = true <;>
    simp [h, Metrics.setResticDurationByBackupName, Metrics.addResticErrorByBackupName,
      Series.set, Series.add, hn]

/-- Names outside the unit list are untouched by the whole loop. -/
theorem backupLoop_frame (units : List BackupOutcome) :
    ∀ (m0 : Metrics) (n : String), n ∉ units.map BackupOutcome.name →
      (units.foldl backupStep m0).resticSnapshotErrors n = m0.resticSnapshotErrors n ∧
      (units.foldl backupStep m0).resticSnapshotLatestDuration n =
        m0.resticSnapshotLatestDuration n := by
  induction units with
  | nil => intro m0 n _; exact ⟨rfl, rfl⟩
  | cons w rest ih =>
      intro m0 n hn
      simp only [List.map_cons, List.mem_cons] at hn
      push_neg at hn
      obtain ⟨hw, hrest⟩ := hn
      obtain ⟨e1, e2⟩ := backupStep_frame m0 w n hw
      obtain ⟨i1, i2⟩ := ih (backupStep m0 w) n (by simpa using hrest)
      rw [List.foldl_cons]
      exact ⟨i1.trans e1, i2.trans e2⟩

/-- Per-unit effect of the backup loop under unique names: a failing unit
has exactly its own error counter incremented by one and its duration gauge
untouched; a fully succeeding unit has its duration gauge set and its error
counter untouched — independent of the outcomes of all other units. -/
theorem backupLoop_spec (units : List BackupOutcome) :
    ∀ (m0 : Metrics), (units.map BackupOutcome.name).Nodup →
      ∀ u ∈ units,
      ((units.foldl backupStep m0).resticSnapshotErrors u.name =
        if u.ok = true then m0.resticSnapshotErrors u.name
        else some ((m0.resticSnapshotErrors u.name).getD 0 + 1)) ∧
      ((units.foldl backupStep m0).resticSnapshotLatestDuration u.name =
        if u.ok = true then some u.durationSec
        else m0.resticSnapshotLatestDuration u.name) := by
  induction units with
  | nil => intro m0 _ u hu; exact absurd hu (List.not_mem_nil u)
  | cons w rest ih =>
      intro m0 hnd u hu
      simp only [List.map_cons, List.nodup_cons] at hnd
      obtain ⟨hwn, hrestnd⟩ := hnd
      rcases List.mem_cons.mp hu with rfl | hu'
      · have hfr := backupLoop_frame rest (backupStep m0 u) u.name (by simpa using hwn)
        rw [List.foldl_cons]
        rw [hfr.1, hfr.2, backupStep_eq]
        by_cases h : u.ok = true <;>
          simp [h, Metrics.setResticDurationByBackupName, Metrics.addResticErrorByBackupName,
            Series.set, Series.add]
      · have hune : u.name ≠ w.name := by
          intro he
          exact hwn (he ▸ List.mem_map_of_mem BackupOutcome.name hu')
        obtain ⟨e1, e2⟩ := backupStep_frame m0 w u.name hune
        obtain ⟨i1, i2⟩ := ih (backupStep m0 w) hrestnd u hu'
        rw [List.foldl_cons]
        constructor
        · rw [i1, e1]
        · rw [i2, e2]

/-- C7: within one scheduled backup run over the configured list, a failure
in any unit (pre-command, engine backup, or post-command) increments only
that unit's error counter and skips only that unit's duration gauge, while
every other unit is still processed: a fully succeeding unit's duration
gauge is set for its own name regardless of the other units' outcomes, a
failing unit's counter grows by exactly one, and names outside the run are
untouched.  The trailing reconciliation never touches error counters or
duration gauges. -/
theorem claimC7_partial_failure_isolation (units : List BackupOutcome)
    (env : ResticEnv) (m0 : Metrics)
    (hnd : (units.map BackupOutcome.name).Nodup) (u : BackupOutcome) (hu : u ∈ units) :
    ((backupTask units env m0).resticSnapshotErrors u.name =
      if u.ok = true then m0.resticSnapshotErrors u.name
      else some ((m0.resticSnapshotErrors u.name).getD 0 + 1)) ∧
    ((backupTask units env m0).resticSnapshotLatestDuration u.name =
      if u.ok = true then some u.durationSec
      else m0.resticSnapshotLatestDuration u.name) ∧
    (∀ n, n ∉ units.map BackupOutcome.name →
      (backupTask units env m0).resticSnapshotErrors n = m0.resticSnapshotErrors n ∧
      (backupTask units env m0).resticSnapshotLatestDuration n =
        m0.resticSnapshotLatestDuration n) := by
  obtain ⟨hf1, hf2⟩ := updateResticMetrics_frame (units.map BackupOutcome.name) env
    (units.foldl backupStep m0)
  have htask : ∀ n : String,
      (backupTask units env m0).resticSnapshotErrors n =
        (units.foldl backupStep m0).resticSnapshotErrors n ∧
      (backupTask units env m0).resticSnapshotLatestDuration n =
        (units.foldl backupStep m0).resticSnapshotLatestDuration n := by
    intro n
    unfold backupTask
    rw [hf1, hf2]
    exact ⟨rfl, rfl⟩
  obtain ⟨l1, l2⟩ := backupLoop_spec units m0 hnd u hu
  refine ⟨(htask u.name).1.trans l1, (htask u.name).2.trans l2, ?_⟩
  intro n hn
  obtain ⟨f1, f2⟩ := backupLoop_frame units m0 n hn
  exact ⟨(htask n).1.trans f1, (htask n).2.trans f2⟩

/-- Witness for C7 at a two-unit run where unit A's pre-command fails and
unit B succeeds: B's duration gauge is set and its error counter untouched,
A's error counter reads one, and an unrelated name stays absent. -/
theorem claimC7_witness :
    (backupTask [⟨"A", some false, true, none, 11⟩, ⟨"B", none, true, none, 22⟩]
      ⟨.ok [], fun _ => .ok 0⟩ newMetrics).resticSnapshotErrors "B" = none ∧
    (backupTask [⟨"A", some false, true, none, 11⟩, ⟨"B", none, true, none, 22⟩]
      ⟨.ok [], fun _ => .ok 0⟩ newMetrics).resticSnapshotLatestDuration "B" = some 22 ∧
    (backupTask [⟨"A", some false, true, none, 11⟩, ⟨"B", none, true, none, 22⟩]
      ⟨.ok [], fun _ => .ok 0⟩ newMetrics).resticSnapshotErrors "A" = some 1 ∧
    (backupTask [⟨"A", some false, true, none, 11⟩, ⟨"B", none, true, none, 22⟩]
      ⟨.ok [], fun _ => .ok 0⟩ newMetrics).resticSnapshotErrors "C" = none := by
  have hB := claimC7_partial_failure_isolation
    [⟨"A", some false, true, none, 11⟩, ⟨"B", none, true, none, 22⟩]
    ⟨.ok [], fun _ => .ok 0⟩ newMetrics (by decide)
    ⟨"B", none, true, none, 22⟩ (by decide)
  have hA := claimC7_partial_failure_isolation
    [⟨"A", some false, true, none, 11⟩, ⟨"B", none, true, none, 22⟩]
    ⟨.ok [], fun _ => .ok 0⟩ newMetrics (by decide)
    ⟨"A", some false, true, none, 11⟩ (by decide)
  obtain ⟨b1, b2, bfr⟩ := hB
  obtain ⟨a1, -, -⟩ := hA
  obtain ⟨c1, -⟩ := bfr "C" (by decide)
  exact ⟨b1.trans (by decide), b2.trans (by decide), a1.trans (by decide), c1⟩

/-- A path absent from the key list has no binding. -/
theorem fsFind_none (m : FsMap) (k : FsPath) (h : k ∉ fsKeys m) :
    fsFind m k = none := by
  induction m with
  | nil => rfl
  | cons p rest ih =>
      simp only [fsKeys, List.map_cons, List.mem_cons] at h
      push_neg at h
      have hp : (p.1 = k) = False := by simp [Ne.symm h.1]
      simp only [fsFind, hp, if_false]
      exact ih h.2

/-- A binding survives appending more entries. -/
theorem fsFind_append_of_some (m l : FsMap) (k : FsPath) (v : Leaf)
    (h : fsFind m k = some v) : fsFind (m ++ l) k = some v := by
  induction m with
  | nil => exact Option.noConfusion h
  | cons p rest ih =>
      by_cases hp : p.1 = k
      · simp only [fsFind, hp, if_true] at h
        simp only [List.cons_append, fsFind, hp, if_true]
        exact h
      · simp only [fsFind, hp, if_false] at h
        simp only [List.cons_append, fsFind, hp, if_false]
        exact ih h

/-- Lookup in an appended map falls through to the right part when the key
is absent on the left. -/
theorem fsFind_append_of_none (m l : FsMap) (k : FsPath)
    (h : fsFind m k = none) : fsFind (m ++ l) k = fsFind l k := by
  induction m with
  | nil => rfl
  | cons p rest ih =>
      by_cases hp : p.1 = k
      · simp only [fsFind, hp, if_true] at h
        exact Option.noConfusion h
      · simp only [fsFind, hp, if_false] at h
        simp only [List.cons_append, fsFind, hp, if_false]
        exact ih h

/-- Writing a fresh path appends the binding. -/
theorem fsSet_fresh (m : FsMap) (k : FsPath) (v : Leaf) (h : k ∉ fsKeys m) :
    fsSet m k v = m ++ [(k, v)] := by
  induction m with
  | nil => rfl
  | cons p rest ih =>
      simp only [fsKeys, List.map_cons, List.mem_cons] at h
      push_neg at h
      have hp : (p.1 = k) = False := by simp [Ne.symm h.1]
      simp only [fsSet, hp, if_false, List.cons_append, List.cons.injEq, true_and]
      exact ih h.2

/-- Keys of an appended map. -/
theorem fsKeys_append (m l : FsMap) : fsKeys (m ++ l) = fsKeys m ++ fsKeys l := by
  unfold fsKeys
  exact List.map_append Prod.fst m l

/-- Every enumerated nonempty prefix is indeed a prefix. -/
theorem allPrefixes_are (p q : FsPath) (h : q ∈ allPrefixes p) : q <+: p := by
  simp only [allPrefixes, List.mem_map, List.mem_range] at h
  obtain ⟨i, _, rfl⟩ := h
  exact List.take_prefix (i + 1) p

/-- The enumerated prefixes of a nonempty path are those of its parent plus
the path itself. -/
theorem allPrefixes_concat (p : FsPath) (x : String) :
    allPrefixes (p ++ [x]) = (allPrefixes p).map id ++ [p ++ [x]] := by
  simp only [allPrefixes, List.map_id]
  have hlen : (p ++ [x]).length = p.length + 1 := by simp
  rw [hlen, List.range_succ, List.map_append]
  congr 1
  · apply List.map_congr_left
    intro i hi
    have hi' : i + 1 ≤ p.length := List.mem_range.mp hi
    rw [List.take_append_of_le_length hi']
  · simp

/-- mkdirAll is the identity when every component already exists as a
directory. -/
theorem foldPrefixes_skip (L : List FsPath) :
    ∀ (m : FsMap), (∀ q ∈ L, fsFind m q = some .dirE) →
      L.foldlM
        (fun acc q =>
          match fsFind acc q with
          | none => Except.ok (fsSet acc q .dirE)
          | some .dirE => Except.ok acc
          | some _ => Except.error "mkdir over a non-directory") m =
        Except.ok m := by
  induction L with
  | nil => intro m _; rfl
  | cons q L ih =>
      intro m h
      have hq := h q (List.mem_cons_self q L)
      simp only [List.foldlM, hq]
      exact ih m (fun r hr => h r (List.mem_cons_of_mem q hr))

/-- mkdirAll skips a fully existing directory chain. -/
theorem mkdirAll_skip (m : FsMap) (p : FsPath)
    (h : ∀ q ∈ allPrefixes p, fsFind m q = some .dirE) :
    mkdirAll m p = .ok m :=
  foldPrefixes_skip (allPrefixes p) m h

/-- mkdirAll on a fresh directory whose parent chain exists appends exactly
the one new directory entry. -/
theorem mkdirAll_fresh (m : FsMap) (p : FsPath) (x : String)
    (hanc : ∀ q ∈ allPrefixes p, fsFind m q = some .dirE)
    (hfresh : (p ++ [x]) ∉ fsKeys m) :
    mkdirAll m (p ++ [x]) = .ok (m ++ [(p ++ [x], Leaf.dirE)]) := by
  unfold mkdirAll
  rw [allPrefixes_concat]
  simp only [List.map_id]
  rw [List.foldlM_append]
  rw [foldPrefixes_skip (allPrefixes p) m hanc]
  have hnone : fsFind m (p ++ [x]) = none := fsFind_none m _ hfresh
  simp only [List.foldlM, hnone, bind, Except.bind]
  rw [fsSet_fresh m _ _ hfresh]
  rfl

mutual

/-- Every path recorded for a node placed at p extends p. -/
theorem fsOfNode_keys (n : FNode) : ∀ (p : FsPath), ∀ k ∈ fsKeys (fsOfNode p n), p <+: k :=
  match n with
  | .file c => by
      intro p k hk
      simp only [fsOfNode, fsKeys, List.map_cons, List.map_nil, List.mem_singleton] at hk
      subst hk
      exact List.prefix_rfl
  | .symlink t => by
      intro p k hk
      simp only [fsOfNode, fsKeys, List.map_cons, List.map_nil, List.mem_singleton] at hk
      subst hk
      exact List.prefix_rfl
  | .dir f => by
      intro p k hk
      simp only [fsOfNode, fsKeys, List.map_cons, List.mem_cons] at hk
      rcases hk with rfl | hk
      · exact List.prefix_rfl
      · obtain ⟨x, _, hx⟩ := fsOfForest_keys f p k hk
        have hpp : p <+: p ++ [x] := List.prefix_append p [x]
        exact hpp.trans hx

/-- Every path recorded for a forest placed under p extends p by one of the
forest's top-level names. -/
theorem fsOfForest_keys (f : FForest) :
    ∀ (p : FsPath), ∀ k ∈ fsKeys (fsOfForest p f),
      ∃ x ∈ forestNames f, (p ++ [x]) <+: k :=
  match f with
  | .nil => by
      intro p k hk
      simp [fsOfForest, fsKeys] at hk
  | .cons x node rest => by
      intro p k hk
      rw [fsOfForest, fsKeys_append] at hk
      rcases List.mem_append.mp hk with hk | hk
      · exact ⟨x, List.mem_cons_self x _, fsOfNode_keys node (p ++ [x]) k hk⟩
      · obtain ⟨y, hy, hpre⟩ := fsOfForest_keys rest p k hk
        exact ⟨y, List.mem_cons_of_mem x hy, hpre⟩

end

mutual

/-- Extraction of one node's entry stream at path p ++ [x], starting from a
destination in which the parent chain exists as directories and nothing at
or below p ++ [x] exists: it succeeds and appends exactly the node's
intended bindings. -/
theorem extractNode_go (n : FNode) : ∀ (p : FsPath) (x : String) (m : FsMap),
    (∀ q ∈ allPrefixes p, fsFind m q = some .dirE) →
    (∀ k ∈ fsKeys m, ¬ (p ++ [x]) <+: k) →
    wfNode n = true →
    List.foldlM extractStep m (tarNode (p ++ [x]) n) =
      .ok (m ++ fsOfNode (p ++ [x]) n) :=
  match n with
  | .file c => by
      intro p x m hanc hfresh _
      have hnk : (p ++ [x]) ∉ fsKeys m := fun hk => hfresh _ hk List.prefix_rfl
      have hnone : fsFind m (p ++ [x]) = none := fsFind_none m _ hnk
      have hmk : mkdirAll m (p ++ [x]).dropLast = .ok m := by
        rw [List.dropLast_concat]
        exact mkdirAll_skip m p hanc
      simp only [tarNode, List.foldlM, extractStep, hmk, bind, Except.bind, hnone]
      rw [fsSet_fresh m _ _ hnk]
      rfl
  | .symlink t => by
      intro p x m hanc hfresh _
      have hnk : (p ++ [x]) ∉ fsKeys m := fun hk => hfresh _ hk List.prefix_rfl
      have hnone : fsFind m (p ++ [x]) = none := fsFind_none m _ hnk
      have hmk : mkdirAll m (p ++ [x]).dropLast = .ok m := by
        rw [List.dropLast_concat]
        exact mkdirAll_skip m p hanc
      simp only [tarNode, List.foldlM, extractStep, hmk, bind, Except.bind, hnone]
      rw [fsSet_fresh m _ _ hnk]
      rfl
  | .dir f => by
      intro p x m hanc hfresh hwf
      have hnk : (p ++ [x]) ∉ fsKeys m := fun hk => hfresh _ hk List.prefix_rfl
      have hmk : mkdirAll m (p ++ [x]) = .ok (m ++ [(p ++ [x], Leaf.dirE)]) :=
        mkdirAll_fresh m p x hanc hnk
      have hanc1 : ∀ q ∈ allPrefixes (p ++ [x]),
          fsFind (m ++ [(p ++ [x], Leaf.dirE)]) q = some .dirE := by
        intro q hq
        rw [allPrefixes_concat] at hq
        simp only [List.map_id] at hq
        rcases List.mem_append.mp hq with hq | hq
        · exact fsFind_append_of_some m _ q _ (hanc q hq)
        · rw [List.mem_singleton] at hq
          subst hq
          rw [fsFind_append_of_none m _ _ (fsFind_none m _ hnk)]
          simp [fsFind]
      have hfresh1 : ∀ k ∈ fsKeys (m ++ [(p ++ [x], Leaf.dirE)]),
          ∀ y ∈ forestNames f, ¬ ((p ++ [x]) ++ [y]) <+: k := by
        intro k hk y _ hcon
        rw [fsKeys_append] at hk
        rcases List.mem_append.mp hk with hk | hk
        · have hpp : (p ++ [x]) <+: (p ++ [x]) ++ [y] := List.prefix_append (p ++ [x]) [y]
          exact hfresh k hk (hpp.trans hcon)
        · simp only [fsKeys, List.map_cons, List.map_nil, List.mem_singleton] at hk
          subst hk
          have := hcon.length_le
          simp at this
      have hrec := extractForest_go f (p ++ [x]) (m ++ [(p ++ [x], Leaf.dirE)])
        hanc1 hfresh1 (by simpa [wfNode] using hwf)
      simp only [tarNode, List.foldlM, extractStep, hmk, bind, Except.bind]
      rw [hrec]
      rw [List.append_assoc]
      rfl

/-- Extraction of a forest's entry stream under path p, starting from a
destination in which p's chain exists as directories and nothing below any
of the forest's top-level names exists: it succeeds and appends exactly the
forest's intended bindings. -/
theorem extractForest_go (f : FForest) : ∀ (p : FsPath) (m : FsMap),
    (∀ q ∈ allPrefixes p, fsFind m q = some .dirE) →
    (∀ k ∈ fsKeys m, ∀ x ∈ forestNames f, ¬ (p ++ [x]) <+: k) →
    wfForest f = true →
    List.foldlM extractStep m (tarForest p f) = .ok (m ++ fsOfForest p f) :=
  match f with
  | .nil => by
      intro p m _ _ _
      simp only [tarForest, fsOfForest, List.append_nil, List.foldlM]
      rfl
  | .cons x node rest => by
      intro p m hanc hfresh hwf
      simp only [wfForest, Bool.and_eq_true, Bool.not_eq_true'] at hwf
      obtain ⟨⟨hxnot, hwn⟩, hwr⟩ := hwf
      have hxmem : x ∉ forestNames rest := by simpa using hxnot
      have hnode := extractNode_go node p x m hanc
        (fun k hk => hfresh k hk x (List.mem_cons_self x _)) hwn
      have hanc1 : ∀ q ∈ allPrefixes p,
          fsFind (m ++ fsOfNode (p ++ [x]) node) q = some .dirE :=
        fun q hq => fsFind_append_of_some m _ q _ (hanc q hq)
      have hfresh1 : ∀ k ∈ fsKeys (m ++ fsOfNode (p ++ [x]) node),
          ∀ y ∈ forestNames rest, ¬ (p ++ [y]) <+: k := by
        intro k hk y hy hcon
        rw [fsKeys_append] at hk
        rcases List.mem_append.mp hk with hk | hk
        · exact hfresh k hk y (List.mem_cons_of_mem x hy) hcon
        · have hxk : (p ++ [x]) <+: k := fsOfNode_keys node (p ++ [x]) k hk
          have hlen : (p ++ [y]).length ≤ (p ++ [x]).length := by simp
          have hyx : (p ++ [y]) <+: (p ++ [x]) :=
            List.prefix_of_prefix_length_le hcon hxk hlen
          have heq : p ++ [y] = p ++ [x] := hyx.eq_of_length (by simp)
          have : y = x := by
            have := List.append_cancel_left heq
            simpa using this
          exact hxmem (this ▸ hy)
      have hrest := extractForest_go rest p (m ++ fsOfNode (p ++ [x]) node)
        hanc1 hfresh1 hwr
      rw [tarForest, List.foldlM_append, hnode]
      simp only [bind, Except.bind]
      rw [hrest, List.append_assoc]
      rfl

end

/-- Core tar round-trip: extracting the writer's entry stream into a fresh
destination reproduces exactly the tree's paths, file contents and symlink
targets. -/
theorem extract_write_roundtrip (d : FForest) (hwf : wfForest d = true) :
    extractTar (writeDirectoryToTar d) = .ok (fsOfForest [] d) := by
  have hanc : ∀ q ∈ allPrefixes ([] : FsPath), fsFind [] q = some .dirE := by
    intro q hq
    simp [allPrefixes] at hq
  have hfresh : ∀ k ∈ fsKeys [], ∀ x ∈ forestNames d, ¬ (([] : FsPath) ++ [x]) <+: k := by
    intro k hk
    simp [fsKeys] at hk
  have h := extractForest_go d [] [] hanc hfresh hwf
  unfold extractTar writeDirectoryToTar
  simpa using h

/-- C4: for every well-formed directory tree of directories, regular files
and symlinks, packing with WriteDirectoryToTar and unpacking with ExtractTar
into an empty destination reproduces the tree's file tree, file contents and
symlink targets exactly; and for any serialization, compression and
encryption stages whose decode side inverts their encode side (the
archive/tar framing, gzip and age round-trips, which are external
libraries), the full decrypt-decompress-untar of encrypt-compress-tar
reproduces the tree as well. -/
theorem claimC4_tar_pipeline_roundtrip {β γ δ : Type}
    (serialTar : List TarEntry → β) (parseTar : β → List TarEntry)
    (gzipC : β → γ) (gunzipC : γ → β) (ageEnc : γ → δ) (ageDec : δ → γ)
    (d : FForest) (hwf : wfForest d = true)
    (hser : ∀ b, parseTar (serialTar b) = b)
    (hgz : ∀ b, gunzipC (gzipC b) = b)
    (hage : ∀ b, ageDec (ageEnc b) = b) :
    extractTar (writeDirectoryToTar d) = .ok (fsOfForest [] d) ∧
    restoreArchive ageDec gunzipC parseTar
      (exportArchive serialTar gzipC ageEnc d) = .ok (fsOfForest [] d) := by
  have hcore := extract_write_roundtrip d hwf
  refine ⟨hcore, ?_⟩
  unfold restoreArchive exportArchive
  rw [hage, hgz, hser]
  exact hcore

/-- Witness for C4 at a small tree (a directory holding a file and a
symlink, plus a root file) with identity stage functions: the round trip
reproduces the tree exactly. -/
theorem claimC4_witness :
    wfForest (FForest.cons "a"
      (FNode.dir (FForest.cons "f" (FNode.file [1, 2])
        (FForest.cons "l" (FNode.symlink "f") FForest.nil)))
      (FForest.cons "g" (FNode.file [9]) FForest.nil)) = true ∧
    restoreArchive id id id
      (exportArchive id id id
        (FForest.cons "a"
          (FNode.dir (FForest.cons "f" (FNode.file [1, 2])
            (FForest.cons "l" (FNode.symlink "f") FForest.nil)))
          (FForest.cons "g" (FNode.file [9]) FForest.nil))) =
      .ok [(["a"], Leaf.dirE), (["a", "f"], Leaf.fileE [1, 2]),
           (["a", "l"], Leaf.linkE "f"), (["g"], Leaf.fileE [9])] := by
  have h := claimC4_tar_pipeline_roundtrip
    (β := List TarEntry) (γ := List TarEntry) (δ := List TarEntry)
    id id id id id id
    (FForest.cons "a"
      (FNode.dir (FForest.cons "f" (FNode.file [1, 2])
        (FForest.cons "l" (FNode.symlink "f") FForest.nil)))
      (FForest.cons "g" (FNode.file [9]) FForest.nil))
    (by decide) (fun _ => rfl) (fun _ => rfl) (fun _ => rfl)
  exact ⟨by decide, h.2.trans rfl⟩

end AutoRestic
